import Mathlib

/-!
# Redirect handler of the Go HTTP library (`http/go/nethttp/redirect_handler.go`)

A shallow embedding of `RedirectHandler` and of the properties stated about it.

Modelling conventions.

* Go strings are Lean `String`s; reading the first byte of a string and comparing it with
  `'/'` is reading its first character.
* `http.Header` is a `map[string][]string`; it is an association list here. The handler only
  uses the keys `Location`, `Authorization`, `Content-Type` and `Content-Length`, which are
  their own canonical MIME form, so `Get` and `Del` look the key up as written.
* `url.Parse` and `strings.EqualFold` belong to the Go standard library and the request
  context is an opaque carrier: the three are the fields of `Env`, and every theorem holds for
  every `Env`. Where a property rests on the scheme and host that `url.Parse` returns, the
  theorem asks that the environment agree with the description of the two library functions
  given under "Scheme and host in the standard library".
* `pipeline.Next` may answer differently on every call: a `Pipeline` receives the requests
  already forwarded during the current `Intercept` call together with the request to send.
  A run records, in order, every request handed to `pipeline.Next`.
* Requests given to `Intercept` are non-nil, and policies are non-nil `*RedirectHandlerOptions`
  (the only implementation of `redirectHandlerOptionsInt`); `GetMaxRedirect` keeps its nil case.
* Requests are values in the loop. That `getRedirectRequest` leaves its argument untouched is
  stated on a second embedding, `getRedirectRequestAt`, in which a request is an address in a
  `Memory` and header maps are changed in place; it is proved to compute the same request.
-/

namespace Nethttp

/-- The fields of `url.URL` the handler reads, and the path. -/
structure URL where
  Scheme : String
  Host : String
  Path : String
  deriving DecidableEq

/-- The `http.Header` mapping from header names to their values. -/
structure Header where
  entries : List (String × List String)
  deriving DecidableEq

/-- The values stored under `key` (Go: `h[key]`), `none` when the key is absent. -/
def Header.Values (h : Header) (key : String) : Option (List String) :=
  h.entries.lookup key

/-- The method `Header.Get`: the first value stored under `key`, or `""`. -/
def Header.Get (h : Header) (key : String) : String :=
  match h.entries.lookup key with
  | some (v :: _) => v
  | _ => ""

/-- The method `Header.Del`: removes `key` from the mapping. -/
def Header.Del (h : Header) (key : String) : Header :=
  ⟨h.entries.filter (fun kv => kv.1 != key)⟩

/-- An `http.Request`: method, URL, headers, body (`none` is a nil body) and the handle of its
context. The other fields are copied by `Clone` and never touched by the handler. -/
structure Request where
  Method : String
  URL : URL
  Header : Header
  Body : Option String
  Context : Nat
  deriving DecidableEq

/-- An `http.Response`. -/
structure Response where
  StatusCode : Int
  Header : Header
  Body : String
  deriving DecidableEq

/-- Options to use when evaluating whether to redirect or not. `ShouldRedirect = none` is the
nil callback. -/
structure RedirectHandlerOptions where
  ShouldRedirect : Option (Request → Option Response → Bool)
  MaxRedirects : Int

/-- The redirect handler: it holds its default options. -/
structure RedirectHandler where
  options : RedirectHandlerOptions

/-- What the handler takes from outside the package: `url.Parse`, `strings.EqualFold`, and
`ctx.Value(redirectKeyValue).(redirectHandlerOptionsInt)` for the context with a given handle. -/
structure Env where
  Parse : String → Except String URL
  EqualFold : String → String → Bool
  Value : Nat → Option RedirectHandlerOptions

/-- The call `pipeline.Next`, given the requests already forwarded in this call and the request to
send: the response (possibly nil) and the error (possibly nil). -/
abbrev Pipeline := List Request → Request → Option Response × Option String

def defaultMaxRedirects : Int := 5
def absoluteMaxRedirects : Int := 20
def movedPermanently : Int := 301
def found : Int := 302
def seeOther : Int := 303
def temporaryRedirect : Int := 307
def permanentRedirect : Int := 308
def locationHeader : String := "Location"

/-- The constructor `NewRedirectHandlerWithOptions`. -/
def NewRedirectHandlerWithOptions (options : RedirectHandlerOptions) : RedirectHandler :=
  { options := options }

/-- The constructor `NewRedirectHandler`: the default options. -/
def NewRedirectHandler : RedirectHandler :=
  NewRedirectHandlerWithOptions
    { MaxRedirects := defaultMaxRedirects, ShouldRedirect := some (fun _ _ => true) }

/-- The method `GetShouldRedirect`. -/
def RedirectHandlerOptions.GetShouldRedirect (o : RedirectHandlerOptions) :
    Option (Request → Option Response → Bool) :=
  o.ShouldRedirect

/-- The method `GetMaxRedirect`, on a possibly nil receiver. -/
def GetMaxRedirect (o : Option RedirectHandlerOptions) : Int :=
  match o with
  | none => defaultMaxRedirects
  | some o =>
    if o.MaxRedirects < 1 then defaultMaxRedirects
    else if o.MaxRedirects > absoluteMaxRedirects then absoluteMaxRedirects
    else o.MaxRedirects

/-- The method `isRedirectResponse`. -/
def isRedirectResponse (response : Option Response) : Bool :=
  match response with
  | none => false
  | some response =>
    let locationHeader := response.Header.Get locationHeader
    if locationHeader = "" then false
    else
      let statusCode := response.StatusCode
      statusCode == movedPermanently || statusCode == found || statusCode == seeOther ||
        statusCode == temporaryRedirect || statusCode == permanentRedirect

/-- What a call of `getRedirectRequest` does: it returns a request, returns an error, or reads
`locationHeaderValue[0]` of an empty string (a run-time fault). -/
inductive Rebuilt where
  | ok (request : Request)
  | error (err : String)
  | indexOutOfRange
  deriving DecidableEq

/-- The string handed to `url.Parse` (lines 131-133), for a `Location` value whose first
character is `first`. -/
def locationTarget (request : Request) (first : Char) (locationHeaderValue : String) : String :=
  if first = '/' then request.URL.Scheme ++ "://" ++ request.URL.Host ++ locationHeaderValue
  else locationHeaderValue

/-- The method `getRedirectRequest`; `request.Clone` is the request itself, a value. -/
def getRedirectRequest (env : Env) (request : Option Request) (response : Option Response) :
    Rebuilt :=
  match request, response with
  | some request, some response =>
    let locationHeaderValue := response.Header.Get locationHeader
    match locationHeaderValue.data with
    | [] => .indexOutOfRange
    | first :: _ =>
      let locationHeaderValue := locationTarget request first locationHeaderValue
      let result := request
      match env.Parse locationHeaderValue with
      | .error err => .error err
      | .ok targetUrl =>
        let result := { result with URL := targetUrl }
        let sameHost := env.EqualFold targetUrl.Host request.URL.Host
        let sameScheme := env.EqualFold targetUrl.Scheme request.URL.Scheme
        let result :=
          if !sameHost || !sameScheme then
            { result with Header := result.Header.Del "Authorization" }
          else result
        let result :=
          if response.StatusCode == seeOther then
            { result with
              Method := "GET"
              Header := (result.Header.Del "Content-Type").Del "Content-Length"
              Body := none }
          else result
        .ok result
  | _, _ => .error "request or response is nil"

/-- How a call ends: it returns `(response, err)`, or it faults. -/
inductive Completion where
  | returned (response : Option Response) (err : Option String)
  | faulted
  deriving DecidableEq

/-- A run: how it ended and the requests handed to `pipeline.Next`, in order. -/
structure Run where
  result : Completion
  sent : List Request
  deriving DecidableEq

/-- Line 96 of `redirectRequest`: the callback's answer when there is one, `true` when the
callback is nil. -/
def shouldRedirect (reqOption : RedirectHandlerOptions) (req : Request)
    (response : Option Response) : Bool :=
  (match reqOption.GetShouldRedirect with
    | some f => f req response
    | none => false) || reqOption.GetShouldRedirect.isNone

/-- The method `redirectRequest`; `sent` are the requests forwarded so far. -/
def redirectRequest (env : Env) (pipeline : Pipeline) (reqOption : RedirectHandlerOptions)
    (sent : List Request) (req : Request) (response : Option Response) (redirectCount : Int) :
    Run :=
  if _ : (isRedirectResponse response &&
      decide (redirectCount < GetMaxRedirect (some reqOption)) &&
      shouldRedirect reqOption req response) = true then
    let redirectCount := redirectCount + 1
    match getRedirectRequest env (some req) response with
    | .error err => ⟨.returned response (some err), sent⟩
    | .indexOutOfRange => ⟨.faulted, sent⟩
    | .ok rebuilt =>
      match pipeline sent rebuilt with
      | (result, some err) => ⟨.returned result (some err), sent ++ [rebuilt]⟩
      | (result, none) =>
        redirectRequest env pipeline reqOption (sent ++ [rebuilt]) rebuilt result redirectCount
  else ⟨.returned response none, sent⟩
termination_by (GetMaxRedirect (some reqOption) - redirectCount).toNat
decreasing_by
  simp_all only [Bool.and_eq_true, decide_eq_true_eq]
  omega

/-- Lines 88-91 of `Intercept`: the override carried by the request's context when there is
one, the handler's own options otherwise. -/
def resolveOptions (env : Env) (middleware : RedirectHandler) (req : Request) :
    RedirectHandlerOptions :=
  match env.Value req.Context with
  | some o => o
  | none => middleware.options

/-- The method `Intercept`; the run records the requests handed to `pipeline.Next`. -/
def Intercept (env : Env) (middleware : RedirectHandler) (pipeline : Pipeline) (req : Request) :
    Run :=
  match pipeline [] req with
  | (response, some err) => ⟨.returned response (some err), [req]⟩
  | (response, none) =>
    let reqOption := resolveOptions env middleware req
    redirectRequest env pipeline reqOption [req] req response 0

/-! ## Redirect chains

The exchanges of a chain, whatever the policy: the original request and its response, then
each rebuilt request and the response to it, as long as rebuilding succeeds and the pipeline
reports no error. -/

/-- A point of a chain: the requests forwarded so far, the last of them, and its response. -/
structure Hop where
  sent : List Request
  req : Request
  response : Option Response
  deriving DecidableEq

/-- The next exchange: rebuild from the current request and response, and forward. -/
def nextHop (env : Env) (pipeline : Pipeline) (h : Hop) : Option Hop :=
  match getRedirectRequest env (some h.req) h.response with
  | .ok rebuilt =>
    match pipeline h.sent rebuilt with
    | (result, none) => some ⟨h.sent ++ [rebuilt], rebuilt, result⟩
    | (_, some _) => none
  | _ => none

/-- The point reached `k` exchanges after `h`. -/
def hopsFrom (env : Env) (pipeline : Pipeline) : Nat → Hop → Option Hop
  | 0, h => some h
  | k + 1, h => (nextHop env pipeline h).bind (hopsFrom env pipeline k)

/-- The point of the chain of `req` at which `k` rebuilt requests have been answered. -/
def chain (env : Env) (pipeline : Pipeline) (req : Request) (k : Nat) : Option Hop :=
  match pipeline [] req with
  | (response, none) => hopsFrom env pipeline k ⟨[req], req, response⟩
  | (_, some _) => none

/-! ## Requests in memory

The method `getRedirectRequest` once more, on requests as Go holds them: a `*http.Request` is
the address of a request structure, and the `Header` field of a structure refers to a header
map, which `Header.Del` changes in place. `Request.Clone` is the deep copy of the standard
library: a new structure with a copy of the header map. -/

/-- A request structure in memory; `Header` is the address of its header map, `none` for a nil
map. -/
structure RequestCell where
  Method : String
  URL : URL
  Header : Option Nat
  Body : Option String
  Context : Nat
  deriving DecidableEq

/-- The memory: request structures and header maps, each addressed by position. -/
structure Memory where
  requests : List RequestCell
  headers : List Header
  deriving DecidableEq

/-- The header map a `Header` field refers to; a nil map reads as an empty one. -/
def Memory.headerOf (m : Memory) (ref : Option Nat) : Header :=
  match ref with
  | none => ⟨[]⟩
  | some a => (m.headers[a]?).getD ⟨[]⟩

/-- The request found at an address, as a value. -/
def Memory.view (m : Memory) (p : Nat) : Option Request :=
  (m.requests[p]?).map fun c => ⟨c.Method, c.URL, m.headerOf c.Header, c.Body, c.Context⟩

/-- The `Header` field of the structure at an address. -/
def Memory.headerRef (m : Memory) (p : Nat) : Option Nat :=
  (m.requests[p]?).bind fun c => c.Header

/-- The `URL` field of the structure at an address. -/
def Memory.urlOf (m : Memory) (p : Nat) : URL :=
  ((m.requests[p]?).map fun c => c.URL).getD ⟨"", "", ""⟩

/-- The method `Header.Del` on the map a `Header` field refers to: the map changes in place,
and nothing happens for a nil map. -/
def Memory.Del (m : Memory) (ref : Option Nat) (key : String) : Memory :=
  match ref with
  | none => m
  | some a => { m with headers := m.headers.set a ((m.headerOf (some a)).Del key) }

/-- An assignment to fields of the structure at an address. -/
def Memory.assign (m : Memory) (p : Nat) (f : RequestCell → RequestCell) : Memory :=
  match m.requests[p]? with
  | none => m
  | some c => { m with requests := m.requests.set p (f c) }

/-- The method `Request.Clone` for the structure `c`: a new structure with the fields of `c`
and, unless the header map of `c` is nil, a new map with its entries; the address of the new
structure is returned. -/
def Memory.Clone (m : Memory) (c : RequestCell) : Memory × Nat :=
  match c.Header with
  | none => ({ m with requests := m.requests ++ [c] }, m.requests.length)
  | some a =>
    ({ requests := m.requests ++ [{ c with Header := some m.headers.length }]
       headers := m.headers ++ [m.headerOf (some a)] }, m.requests.length)

/-- What a call of `getRedirectRequest` on addresses does. -/
inductive RebuiltAt where
  | ok (address : Nat)
  | error (err : String)
  | indexOutOfRange
  deriving DecidableEq

/-- The method `getRedirectRequest` on memory: `request` is nil or an address (an address
outside the memory counts as nil); the memory after the call is returned with the outcome. -/
def getRedirectRequestAt (env : Env) (m : Memory) (request : Option Nat)
    (response : Option Response) : Memory × RebuiltAt :=
  match request, response with
  | some request, some response =>
    match m.requests[request]? with
    | none => (m, .error "request or response is nil")
    | some cell =>
      let locationHeaderValue := response.Header.Get locationHeader
      match locationHeaderValue.data with
      | [] => (m, .indexOutOfRange)
      | first :: _ =>
        let locationHeaderValue :=
          if first = '/' then
            (m.urlOf request).Scheme ++ "://" ++ (m.urlOf request).Host ++ locationHeaderValue
          else locationHeaderValue
        let cloned := m.Clone cell
        let m := cloned.1
        let result := cloned.2
        match env.Parse locationHeaderValue with
        | .error err => (m, .error err)
        | .ok targetUrl =>
          let m := m.assign result fun c => { c with URL := targetUrl }
          let sameHost := env.EqualFold targetUrl.Host (m.urlOf request).Host
          let sameScheme := env.EqualFold targetUrl.Scheme (m.urlOf request).Scheme
          let m :=
            if !sameHost || !sameScheme then m.Del (m.headerRef result) "Authorization"
            else m
          let m :=
            if response.StatusCode == seeOther then
              let m := m.assign result fun c => { c with Method := "GET" }
              let m := m.Del (m.headerRef result) "Content-Type"
              let m := m.Del (m.headerRef result) "Content-Length"
              m.assign result fun c => { c with Body := none }
            else m
          (m, .ok result)
  | _, _ => (m, .error "request or response is nil")

/-! ## Scheme and host in the standard library

What `url.Parse` and `strings.EqualFold` of the Go standard library do, as far as the scheme
and the host of a URL are concerned: how `url.Parse` splits a string into scheme, authority
and the rest, and how `strings.EqualFold` compares ASCII strings. Whether `url.Parse` accepts
a string (control characters, escapes, ports, user information) is not described; the
description says which scheme and host the returned URL has when it accepts. -/

/-- An ASCII letter. -/
def isLetter (c : Char) : Bool :=
  ('a' ≤ c && c ≤ 'z') || ('A' ≤ c && c ≤ 'Z')

/-- A digit, `+`, `-` or `.`: what a scheme may hold besides letters, after its first
character. -/
def isSchemeMark (c : Char) : Bool :=
  ('0' ≤ c && c ≤ '9') || c == '+' || c == '-' || c == '.'

/-- The scan of `getScheme` in `net/url`, with the characters `seen` so far and those still
to read: a scheme is a letter followed by letters, digits, `+`, `-`, `.` and ends at the first
`:`; the result is the scheme and what follows the colon, or no scheme and the whole string. -/
def getSchemeFrom (rawURL : List Char) :
    List Char → List Char → Except String (List Char × List Char)
  | _, [] => .ok ([], rawURL)
  | seen, c :: rest =>
    if isLetter c then getSchemeFrom rawURL (seen ++ [c]) rest
    else if isSchemeMark c then
      if seen = [] then .ok ([], rawURL) else getSchemeFrom rawURL (seen ++ [c]) rest
    else if c = ':' then
      if seen = [] then .error "missing protocol scheme" else .ok (seen, rest)
    else .ok ([], rawURL)

/-- The function `getScheme` of `net/url`. -/
def getScheme (rawURL : List Char) : Except String (List Char × List Char) :=
  getSchemeFrom rawURL [] rawURL

/-- The lower-case form of an ASCII letter, as `strings.ToLower` gives it; a scheme holds no
other letters. -/
def lowerASCII (c : Char) : Char :=
  if 'A' ≤ c ∧ c ≤ 'Z' then Char.ofNat (c.toNat + 32) else c

/-- The text before the first `sep`, the whole text when there is none (the first result of
`strings.Cut`). -/
def cutBefore (sep : Char) (s : List Char) : List Char :=
  s.takeWhile (fun c => c != sep)

/-- The text after the last `@`, the whole text when there is none: the host part of an
authority. -/
def afterLastAt (authority : List Char) : List Char :=
  (authority.reverse.takeWhile (fun c => c != '@')).reverse

/-- The scheme, the host and the path as written that `url.Parse` finds in `rawURL`, when it
accepts it: the fragment is cut at the first `#`, the scheme is taken by `getScheme` and put
in lower case, the query is cut at the first `?`; what then begins with `//` holds the
authority up to the next `/`, whose host is what follows the last `@`. The answer is `none`
when `getScheme` fails and when the host holds a `%`, which `url.Parse` decodes. -/
def splitURL (rawURL : String) : Option (String × String × String) :=
  match getScheme (cutBefore '#' rawURL.data) with
  | .error _ => none
  | .ok (scheme, rest) =>
    let scheme := scheme.map lowerASCII
    let rest := cutBefore '?' rest
    match rest with
    | '/' :: '/' :: more =>
      if scheme ≠ [] ∨ more.head? ≠ some '/' then
        let host := afterLastAt (more.takeWhile (fun c => c != '/'))
        if host.contains '%' then none
        else some (String.mk scheme, String.mk host,
          String.mk (more.dropWhile (fun c => c != '/')))
      else some (String.mk scheme, "", String.mk rest)
    | _ => some (String.mk scheme, "", String.mk rest)

/-- The scheme and the host of the URL that `url.Parse` returns for `rawURL`, when it returns
one. -/
def schemeAndHost (rawURL : String) : Option (String × String) :=
  (splitURL rawURL).map fun parts => (parts.1, parts.2.1)

/-- The ASCII loop of `strings.EqualFold`: characters are compared in pairs, equal when they
are the same or an upper-case letter and its lower-case form; the first pair that does not
match gives `false`, and when one string is exhausted the answer is whether both are. The
answer is `none` from a pair with a character beyond ASCII on, where the Unicode tables
decide. -/
def asciiFold : List Char → List Char → Option Bool
  | c :: cs, d :: ds =>
    if 128 ≤ c.toNat ∨ 128 ≤ d.toNat then none
    else if c = d then asciiFold cs ds
    else if ('A' ≤ c ∧ c ≤ 'Z' ∧ d.toNat = c.toNat + 32) ∨
        ('A' ≤ d ∧ d ≤ 'Z' ∧ c.toNat = d.toNat + 32) then asciiFold cs ds
    else some false
  | [], ds => some ds.isEmpty
  | _ :: _, [] => some false

/-- What `strings.EqualFold` answers: `true` for identical strings, and the answer of the
ASCII loop where it gives one. -/
def equalFoldModel (s t : String) : Option Bool :=
  if s = t then some true else asciiFold s.data t.data

/-- An environment whose `Parse` gives URLs with the scheme and host that `url.Parse`
gives. -/
def Env.parsesAsGo (env : Env) : Prop :=
  ∀ raw u parts, env.Parse raw = .ok u → schemeAndHost raw = some parts →
    u.Scheme = parts.1 ∧ u.Host = parts.2

/-- An environment whose `EqualFold` answers as `strings.EqualFold` does. -/
def Env.foldsAsGo (env : Env) : Prop :=
  ∀ s t b, equalFoldModel s t = some b → env.EqualFold s t = b

/-- Splits `scheme://rest` at the first `://`. -/
def splitAtScheme : List Char → List Char → Option (List Char × List Char)
  | acc, ':' :: '/' :: '/' :: rest => some (acc.reverse, rest)
  | acc, c :: rest => splitAtScheme (c :: acc) rest
  | _, [] => none

/-- A stand-in for `url.Parse` on the inputs of the worked examples, where it agrees with it:
`scheme://host/path` gives the scheme in lower case, the host and the path, an empty scheme
before `://` is the error "missing protocol scheme", and a reference without a colon is a
path. -/
def sampleParse (raw : String) : Except String URL :=
  match splitAtScheme [] raw.data with
  | some ([], _) => .error "missing protocol scheme"
  | some (scheme, rest) =>
    .ok { Scheme := String.mk (scheme.map Char.toLower)
          Host := String.mk (rest.takeWhile (· != '/'))
          Path := String.mk (rest.dropWhile (· != '/')) }
  | none => .ok { Scheme := "", Host := "", Path := raw }

/-- A stand-in for `strings.EqualFold` on ASCII strings. -/
def sampleFold (s t : String) : Bool :=
  s.data.map Char.toLower == t.data.map Char.toLower

/-- The environment of the worked examples; no request context carries an override. -/
def sampleEnv : Env :=
  { Parse := sampleParse, EqualFold := sampleFold, Value := fun _ => none }

/-- A `POST` to `https://a.example/x` with credentials, a body and a cookie. -/
def postRequest : Request :=
  { Method := "POST"
    URL := ⟨"https", "a.example", "/x"⟩
    Header := ⟨[("Authorization", ["Bearer T"]), ("Content-Type", ["application/json"]),
      ("Content-Length", ["7"]), ("Cookie", ["k=v"])]⟩
    Body := some "payload"
    Context := 0 }

/-- A `GET` to `https://a.example/x` that carries no credentials. -/
def plainRequest : Request :=
  { Method := "GET"
    URL := ⟨"https", "a.example", "/x"⟩
    Header := ⟨[("Accept", ["*/*"])]⟩
    Body := none
    Context := 0 }

/-- A response with the given status code and `Location` value. -/
def redirectTo (status : Int) (location : String) : Response :=
  { StatusCode := status, Header := ⟨[("Location", [location])]⟩, Body := "" }

/-- A final response. -/
def okResponse : Response :=
  { StatusCode := 200, Header := ⟨[]⟩, Body := "done" }

/-- A pipeline that answers every request with 302 and `Location: /y`. -/
def alwaysRedirect : Pipeline :=
  fun _ _ => (some (redirectTo 302 "/y"), none)

/-- A pipeline for a potential 4-hop chain whose third call (hop 2) fails in transport: it
answers 302 with `Location: /y` four times and then 200, but reports an error, together with a
302 response, for the request of hop 2. -/
def failsAtHopTwo : Pipeline :=
  fun sent _ =>
    if sent.length = 2 then (some (redirectTo 302 "/z"), some "connection reset")
    else if sent.length < 4 then (some (redirectTo 302 "/y"), none)
    else (some okResponse, none)

/-- A policy whose predicate declines every redirect. -/
def declining : RedirectHandlerOptions :=
  { ShouldRedirect := some (fun _ _ => false), MaxRedirects := 5 }

/-- An environment in which the context with handle 1 carries an override that allows two
hops. -/
def overrideEnv : Env :=
  { sampleEnv with Value := fun handle => if handle = 1 then some ⟨none, 2⟩ else none }

/-- The request `postRequest` under the context with handle 1. -/
def overriddenRequest : Request :=
  { postRequest with Context := 1 }

/-- A pipeline that sends `https://a.example/x` to `https://b.example/y`, then to `/z`, and
then answers 200. -/
def crossHostThenPath : Pipeline :=
  fun sent _ =>
    if sent.length = 0 then (some (redirectTo 302 "https://b.example/y"), none)
    else if sent.length = 1 then (some (redirectTo 302 "/z"), none)
    else (some okResponse, none)

/-- A pipeline that sends `https://a.example/x` to `https://b.example/y`, then back to
`https://a.example/x`, and then answers 200. -/
def awayAndBack : Pipeline :=
  fun sent _ =>
    if sent.length = 0 then (some (redirectTo 302 "https://b.example/y"), none)
    else if sent.length = 1 then (some (redirectTo 302 "https://a.example/x"), none)
    else (some okResponse, none)

/-- A memory that holds `postRequest` at address 0, its header map at address 0. -/
def postMemory : Memory :=
  { requests := [⟨"POST", ⟨"https", "a.example", "/x"⟩, some 0, some "payload", 0⟩]
    headers := [postRequest.Header] }

/-- An environment built from the description of the standard library: `Parse` returns the
scheme, host and path as written that `splitURL` finds, and fails where `splitURL` has no
answer. -/
def libraryEnv : Env :=
  { Parse := fun raw =>
      match splitURL raw with
      | some (scheme, host, path) => .ok ⟨scheme, host, path⟩
      | none => .error "rejected"
    EqualFold := fun s t => (equalFoldModel s t).getD false
    Value := fun _ => none }

/-! # Properties -/

/-! ## Header lookups after a deletion -/

theorem lookup_filter_self (key : String) (es : List (String × List String)) :
    (es.filter (fun kv => kv.1 != key)).lookup key = none := by
  induction es with
  | nil => rfl
  | cons e es ih =>
    obtain ⟨k, v⟩ := e
    by_cases hk : k = key
    · simp [List.filter_cons, hk, ih]
    · have hne : (key == k) = false := by simpa using fun h => hk h.symm
      simp [List.filter_cons, hk, List.lookup_cons, hne, ih]

theorem lookup_filter_other (key other : String) (hne : key ≠ other)
    (es : List (String × List String)) :
    (es.filter (fun kv => kv.1 != other)).lookup key = es.lookup key := by
  induction es with
  | nil => rfl
  | cons e es ih =>
    obtain ⟨k, v⟩ := e
    by_cases hk : k = other
    · subst hk
      have hkey : (key == k) = false := by simpa using hne
      simp [List.filter_cons, List.lookup_cons, hkey, ih]
    · by_cases hkk : key = k
      · simp [List.filter_cons, hk, List.lookup_cons, hkk]
      · have hkey : (key == k) = false := by simpa using hkk
        simp [List.filter_cons, hk, List.lookup_cons, hkey, ih]

theorem Header.Values_Del_self (h : Header) (key : String) : (h.Del key).Values key = none :=
  lookup_filter_self key h.entries

theorem Header.Values_Del_other (h : Header) (key other : String) (hne : key ≠ other) :
    (h.Del other).Values key = h.Values key :=
  lookup_filter_other key other hne h.entries

/-! ## One step of `redirectRequest` -/

theorem redirectRequest_stop (env : Env) (pipeline : Pipeline) (reqOption : RedirectHandlerOptions)
    (sent : List Request) (req : Request) (response : Option Response) (redirectCount : Int)
    (stop : (isRedirectResponse response &&
      decide (redirectCount < GetMaxRedirect (some reqOption)) &&
      shouldRedirect reqOption req response) = false) :
    redirectRequest env pipeline reqOption sent req response redirectCount =
      ⟨.returned response none, sent⟩ := by
  rw [redirectRequest.eq_1]
  simp [stop]

theorem redirectRequest_rebuildError (env : Env) (pipeline : Pipeline)
    (reqOption : RedirectHandlerOptions) (sent : List Request) (req : Request)
    (response : Option Response) (redirectCount : Int) (err : String)
    (follow : (isRedirectResponse response &&
      decide (redirectCount < GetMaxRedirect (some reqOption)) &&
      shouldRedirect reqOption req response) = true)
    (rebuild : getRedirectRequest env (some req) response = .error err) :
    redirectRequest env pipeline reqOption sent req response redirectCount =
      ⟨.returned response (some err), sent⟩ := by
  rw [redirectRequest.eq_1]
  simp [follow, rebuild]

theorem redirectRequest_fault (env : Env) (pipeline : Pipeline)
    (reqOption : RedirectHandlerOptions) (sent : List Request) (req : Request)
    (response : Option Response) (redirectCount : Int)
    (follow : (isRedirectResponse response &&
      decide (redirectCount < GetMaxRedirect (some reqOption)) &&
      shouldRedirect reqOption req response) = true)
    (rebuild : getRedirectRequest env (some req) response = .indexOutOfRange) :
    redirectRequest env pipeline reqOption sent req response redirectCount =
      ⟨.faulted, sent⟩ := by
  rw [redirectRequest.eq_1]
  simp [follow, rebuild]

theorem redirectRequest_nextError (env : Env) (pipeline : Pipeline)
    (reqOption : RedirectHandlerOptions) (sent : List Request) (req : Request)
    (response : Option Response) (redirectCount : Int) (rebuilt : Request)
    (result : Option Response) (err : String)
    (follow : (isRedirectResponse response &&
      decide (redirectCount < GetMaxRedirect (some reqOption)) &&
      shouldRedirect reqOption req response) = true)
    (rebuild : getRedirectRequest env (some req) response = .ok rebuilt)
    (next : pipeline sent rebuilt = (result, some err)) :
    redirectRequest env pipeline reqOption sent req response redirectCount =
      ⟨.returned result (some err), sent ++ [rebuilt]⟩ := by
  rw [redirectRequest.eq_1]
  simp [follow, rebuild, next]

theorem redirectRequest_next (env : Env) (pipeline : Pipeline)
    (reqOption : RedirectHandlerOptions) (sent : List Request) (req : Request)
    (response : Option Response) (redirectCount : Int) (rebuilt : Request)
    (result : Option Response)
    (follow : (isRedirectResponse response &&
      decide (redirectCount < GetMaxRedirect (some reqOption)) &&
      shouldRedirect reqOption req response) = true)
    (rebuild : getRedirectRequest env (some req) response = .ok rebuilt)
    (next : pipeline sent rebuilt = (result, none)) :
    redirectRequest env pipeline reqOption sent req response redirectCount =
      redirectRequest env pipeline reqOption (sent ++ [rebuilt]) rebuilt result
        (redirectCount + 1) := by
  rw [redirectRequest.eq_1]
  simp [follow, rebuild, next]


/-- The requests forwarded by `redirectRequest` extend those forwarded before by at most the
number of hops left. -/
theorem redirectRequest_sent_le (env : Env) (pipeline : Pipeline)
    (reqOption : RedirectHandlerOptions) (sent : List Request) (req : Request)
    (response : Option Response) (redirectCount : Int) :
    ∃ more, (redirectRequest env pipeline reqOption sent req response redirectCount).sent =
        sent ++ more ∧
      (more.length : Int) ≤ max 0 (GetMaxRedirect (some reqOption) - redirectCount) := by
  induction sent, req, response, redirectCount
    using redirectRequest.induct env pipeline reqOption with
  | case1 sent req response count follow err rebuild =>
    exact ⟨[], by rw [redirectRequest_rebuildError _ _ _ _ _ _ _ err follow rebuild]; simp, by simp⟩
  | case2 sent req response count follow rebuild =>
    exact ⟨[], by rw [redirectRequest_fault _ _ _ _ _ _ _ follow rebuild]; simp, by simp⟩
  | case3 sent req response count follow rebuilt rebuild result err next =>
    refine ⟨[rebuilt], by rw [redirectRequest_nextError _ _ _ _ _ _ _ _ _ err follow rebuild next], ?_⟩
    simp only [Bool.and_eq_true, decide_eq_true_eq] at follow
    have := follow.1.2
    simp only [List.length_singleton, Nat.cast_one]
    omega
  | case4 sent req response count follow count' rebuilt rebuild result next ih =>
    obtain ⟨more, hsent, hlen⟩ := ih
    refine ⟨rebuilt :: more, ?_, ?_⟩
    · rw [redirectRequest_next _ _ _ _ _ _ _ _ _ follow rebuild next, hsent]
      simp
    · simp only [Bool.and_eq_true, decide_eq_true_eq] at follow
      have := follow.1.2
      simp only [List.length_cons, Nat.cast_add, Nat.cast_one]
      omega
  | case5 sent req response count stop =>
    refine ⟨[], ?_, by simp⟩
    rw [redirectRequest_stop _ _ _ _ _ _ _ (by simpa using stop)]
    simp

theorem GetMaxRedirect_bounds (o : Option RedirectHandlerOptions) :
    1 ≤ GetMaxRedirect o ∧ GetMaxRedirect o ≤ 20 := by
  cases o with
  | none => simp [GetMaxRedirect, defaultMaxRedirects]
  | some o =>
    simp only [GetMaxRedirect, defaultMaxRedirects, absoluteMaxRedirects]
    split_ifs <;> omega

/-- C1: one call of `Intercept` hands the original request and then at most `GetMaxRedirect()`
rebuilt requests to `pipeline.Next`, `GetMaxRedirect()` being that of the resolved policy (the
override of the request's context, or else the handler's options). -/
theorem Intercept_forwards_at_most_max (env : Env) (middleware : RedirectHandler)
    (pipeline : Pipeline) (req : Request) :
    ∃ rebuilt, (Intercept env middleware pipeline req).sent = req :: rebuilt ∧
      (rebuilt.length : Int) ≤ GetMaxRedirect (some (resolveOptions env middleware req)) ∧
      ((Intercept env middleware pipeline req).sent.length : Int) ≤
        1 + GetMaxRedirect (some (resolveOptions env middleware req)) := by
  have hpos := (GetMaxRedirect_bounds (some (resolveOptions env middleware req))).1
  unfold Intercept
  rcases hnext : pipeline [] req with ⟨response, _ | err⟩
  · obtain ⟨more, hsent, hlen⟩ := redirectRequest_sent_le env pipeline
      (resolveOptions env middleware req) [req] req response 0
    refine ⟨more, by simpa using hsent, by omega, ?_⟩
    simp only [hsent, List.length_append, List.length_singleton, Nat.cast_add, Nat.cast_one]
    omega
  · exact ⟨[], rfl, by simp; omega, by simp; omega⟩

/-- C3: `isRedirectResponse` answers true exactly for a non-nil response whose `Location` value
is not empty and whose status code is 301, 302, 303, 307 or 308; it answers false for a nil
response. -/
theorem isRedirectResponse_iff (response : Option Response) :
    (isRedirectResponse response = true ↔
      ∃ r, response = some r ∧ r.Header.Get "Location" ≠ "" ∧
        (r.StatusCode = 301 ∨ r.StatusCode = 302 ∨ r.StatusCode = 303 ∨
          r.StatusCode = 307 ∨ r.StatusCode = 308)) ∧
    isRedirectResponse none = false := by
  refine ⟨?_, rfl⟩
  cases response with
  | none => simp [isRedirectResponse]
  | some r =>
    simp only [isRedirectResponse, locationHeader, movedPermanently, found, seeOther,
      temporaryRedirect, permanentRedirect, Option.some.injEq, exists_eq_left']
    by_cases hloc : r.Header.Get "Location" = ""
    · simp [hloc]
    · simp [hloc, or_assoc]

/-- C6: `GetMaxRedirect` is 5 for a nil receiver and for `MaxRedirects < 1`, 20 for
`MaxRedirects > 20`, and `MaxRedirects` itself in between; it always lies in `[1, 20]`. -/
theorem GetMaxRedirect_clamped (f : Option (Request → Option Response → Bool)) (n : Int) :
    GetMaxRedirect none = 5 ∧
    (n < 1 → GetMaxRedirect (some ⟨f, n⟩) = 5) ∧
    (20 < n → GetMaxRedirect (some ⟨f, n⟩) = 20) ∧
    (1 ≤ n ∧ n ≤ 20 → GetMaxRedirect (some ⟨f, n⟩) = n) ∧
    (1 ≤ GetMaxRedirect (some ⟨f, n⟩) ∧ GetMaxRedirect (some ⟨f, n⟩) ≤ 20) ∧
    GetMaxRedirect (some ⟨f, 0⟩) = 5 ∧ GetMaxRedirect (some ⟨f, -3⟩) = 5 ∧
    GetMaxRedirect (some ⟨f, 50⟩) = 20 ∧ GetMaxRedirect (some ⟨f, 10⟩) = 10 := by
  refine ⟨rfl, ?_, ?_, ?_, GetMaxRedirect_bounds _, rfl, rfl, rfl, rfl⟩ <;> intro h <;>
    simp only [GetMaxRedirect, defaultMaxRedirects, absoluteMaxRedirects] <;>
    split_ifs <;> omega

/-! ## The request built by `getRedirectRequest` -/

/-- When the `Location` value is not empty and the string handed to `url.Parse` parses,
`getRedirectRequest` returns the clone with the parsed URL, without `Authorization` when host
or scheme changed, and downgraded when the status is 303. -/
theorem getRedirectRequest_ok (env : Env) (req : Request) (resp : Response) (first : Char)
    (rest : List Char) (u : URL)
    (hloc : (resp.Header.Get "Location").data = first :: rest)
    (hparse : env.Parse (locationTarget req first (resp.Header.Get "Location")) = .ok u) :
    getRedirectRequest env (some req) (some resp) = .ok
      (if resp.StatusCode = 303 then
        { Method := "GET"
          URL := u
          Header := ((if env.EqualFold u.Host req.URL.Host = true ∧
              env.EqualFold u.Scheme req.URL.Scheme = true then req.Header
            else req.Header.Del "Authorization").Del "Content-Type").Del "Content-Length"
          Body := none
          Context := req.Context }
      else
        { Method := req.Method
          URL := u
          Header := if env.EqualFold u.Host req.URL.Host = true ∧
              env.EqualFold u.Scheme req.URL.Scheme = true then req.Header
            else req.Header.Del "Authorization"
          Body := req.Body
          Context := req.Context }) := by
  simp only [getRedirectRequest, locationHeader, hloc, hparse, seeOther]
  cases hh : env.EqualFold u.Host req.URL.Host <;>
    cases hs : env.EqualFold u.Scheme req.URL.Scheme <;>
    by_cases h303 : resp.StatusCode = 303 <;> simp [h303]


/-- The `Authorization` values of the rebuilt request: those of the original when host and
scheme are kept, none otherwise. -/
theorem rebuilt_authorization_values (env : Env) (req : Request) (resp : Response)
    (first : Char) (rest : List Char) (u : URL)
    (hloc : (resp.Header.Get "Location").data = first :: rest)
    (hparse : env.Parse (locationTarget req first (resp.Header.Get "Location")) = .ok u) :
    ∃ r, getRedirectRequest env (some req) (some resp) = .ok r ∧ r.URL = u ∧
      r.Header.Values "Authorization" =
        if env.EqualFold u.Host req.URL.Host = true ∧
          env.EqualFold u.Scheme req.URL.Scheme = true then req.Header.Values "Authorization"
        else none := by
  refine ⟨_, getRedirectRequest_ok env req resp first rest u hloc hparse, ?_⟩
  have hkeep : ∀ h : Header, ((h.Del "Content-Type").Del "Content-Length").Values
      "Authorization" = h.Values "Authorization" := fun h => by
    rw [Header.Values_Del_other _ _ _ (by decide), Header.Values_Del_other _ _ _ (by decide)]
  by_cases hsame : env.EqualFold u.Host req.URL.Host = true ∧
      env.EqualFold u.Scheme req.URL.Scheme = true <;>
    by_cases h303 : resp.StatusCode = 303 <;>
    simp [h303, hsame, hkeep, Header.Values_Del_self]

/-- C2 (as amended): when the `Location` value parses to a target, the rebuilt request carries
that target; it has no `Authorization` header as soon as the target's host or scheme differs
from the request's (compared with `EqualFold`), and it has the original's `Authorization`
values, present or absent, when both are equal; so, for a request that carries an
`Authorization` header, the rebuilt request lacks it exactly when host or scheme differs. -/
theorem getRedirectRequest_authorization (env : Env) (req : Request) (resp : Response)
    (first : Char) (rest : List Char) (u : URL)
    (hloc : (resp.Header.Get "Location").data = first :: rest)
    (hparse : env.Parse (locationTarget req first (resp.Header.Get "Location")) = .ok u) :
    ∃ r, getRedirectRequest env (some req) (some resp) = .ok r ∧ r.URL = u ∧
      (env.EqualFold u.Host req.URL.Host = false ∨
          env.EqualFold u.Scheme req.URL.Scheme = false →
        r.Header.Values "Authorization" = none) ∧
      (env.EqualFold u.Host req.URL.Host = true ∧
          env.EqualFold u.Scheme req.URL.Scheme = true →
        r.Header.Values "Authorization" = req.Header.Values "Authorization") ∧
      (req.Header.Values "Authorization" ≠ none →
        (r.Header.Values "Authorization" = none ↔
          (env.EqualFold u.Host req.URL.Host = false ∨
            env.EqualFold u.Scheme req.URL.Scheme = false))) := by
  obtain ⟨r, hr, hurl, hauth⟩ :=
    rebuilt_authorization_values env req resp first rest u hloc hparse
  refine ⟨r, hr, hurl, ?_, ?_, ?_⟩
  · intro hdiff
    rw [hauth, if_neg]
    rintro ⟨hh, hs⟩
    rcases hdiff with hd | hd
    · rw [hh] at hd; exact Bool.noConfusion hd
    · rw [hs] at hd; exact Bool.noConfusion hd
  · intro hsame
    rw [hauth, if_pos hsame]
  · intro hhas
    rw [hauth]
    by_cases hsame : env.EqualFold u.Host req.URL.Host = true ∧
        env.EqualFold u.Scheme req.URL.Scheme = true
    · simp [hsame, hhas]
    · rw [if_neg hsame]
      simp only [true_iff]
      by_contra hcon
      simp only [not_or, Bool.not_eq_false] at hcon
      exact hsame hcon

/-- C2, the example of the amended claim: `https://a.example/x` with `Authorization: Bearer T`,
answered by 302 with `Location: https://b.example/y`. -/
theorem getRedirectRequest_authorization_witness :
    ∃ r, getRedirectRequest sampleEnv (some postRequest)
        (some (redirectTo 302 "https://b.example/y")) = .ok r ∧
      r.URL = ⟨"https", "b.example", "/y"⟩ ∧
      (sampleEnv.EqualFold "b.example" postRequest.URL.Host = false ∨
          sampleEnv.EqualFold "https" postRequest.URL.Scheme = false →
        r.Header.Values "Authorization" = none) ∧
      (sampleEnv.EqualFold "b.example" postRequest.URL.Host = true ∧
          sampleEnv.EqualFold "https" postRequest.URL.Scheme = true →
        r.Header.Values "Authorization" = postRequest.Header.Values "Authorization") ∧
      (postRequest.Header.Values "Authorization" ≠ none →
        (r.Header.Values "Authorization" = none ↔
          (sampleEnv.EqualFold "b.example" postRequest.URL.Host = false ∨
            sampleEnv.EqualFold "https" postRequest.URL.Scheme = false))) :=
  getRedirectRequest_authorization sampleEnv postRequest (redirectTo 302 "https://b.example/y")
    'h' "ttps://b.example/y".data ⟨"https", "b.example", "/y"⟩ (by decide) (by rfl)

/-- C2, as stated, fails: a request without credentials redirected within its own host and
scheme gives a rebuilt request with no `Authorization` header although neither host nor scheme
differs. -/
theorem getRedirectRequest_authorization_counterexample :
    getRedirectRequest sampleEnv (some plainRequest)
        (some (redirectTo 302 "https://a.example/y")) =
      .ok { plainRequest with URL := ⟨"https", "a.example", "/y"⟩ } ∧
    ¬ (({ plainRequest with URL := ⟨"https", "a.example", "/y"⟩ } : Request).Header.Values
          "Authorization" = none ↔
        (sampleEnv.EqualFold "a.example" plainRequest.URL.Host = false ∨
          sampleEnv.EqualFold "https" plainRequest.URL.Scheme = false)) := by
  decide


/-- C4: for a 303 response whose `Location` value parses, whatever the request and the target,
the rebuilt request has method `GET`, no `Content-Type` header, no `Content-Length` header and
a nil body. -/
theorem getRedirectRequest_seeOther (env : Env) (req : Request) (resp : Response)
    (first : Char) (rest : List Char) (u : URL)
    (hstatus : resp.StatusCode = 303)
    (hloc : (resp.Header.Get "Location").data = first :: rest)
    (hparse : env.Parse (locationTarget req first (resp.Header.Get "Location")) = .ok u) :
    ∃ r, getRedirectRequest env (some req) (some resp) = .ok r ∧ r.URL = u ∧
      r.Method = "GET" ∧ r.Header.Values "Content-Type" = none ∧
      r.Header.Values "Content-Length" = none ∧ r.Body = none := by
  refine ⟨_, getRedirectRequest_ok env req resp first rest u hloc hparse, ?_⟩
  simp only [hstatus, if_true, Header.Values_Del_self, and_true, true_and]
  rw [Header.Values_Del_other _ _ _ (by decide), Header.Values_Del_self]

/-- C4, the example: a `POST` with a body answered by 303 with `Location:
https://b.example/y`. -/
theorem getRedirectRequest_seeOther_witness :
    ∃ r, getRedirectRequest sampleEnv (some postRequest)
        (some (redirectTo 303 "https://b.example/y")) = .ok r ∧
      r.URL = ⟨"https", "b.example", "/y"⟩ ∧
      r.Method = "GET" ∧ r.Header.Values "Content-Type" = none ∧
      r.Header.Values "Content-Length" = none ∧ r.Body = none :=
  getRedirectRequest_seeOther sampleEnv postRequest (redirectTo 303 "https://b.example/y")
    'h' "ttps://b.example/y".data ⟨"https", "b.example", "/y"⟩ (by decide) (by decide) (by rfl)

/-- C5: for a response with a status code other than 303 whose `Location` value parses, the
rebuilt request has the method, the body and the `Content-Type` and `Content-Length` headers
of the original request. -/
theorem getRedirectRequest_no_downgrade (env : Env) (req : Request) (resp : Response)
    (first : Char) (rest : List Char) (u : URL)
    (hstatus : resp.StatusCode ≠ 303)
    (hloc : (resp.Header.Get "Location").data = first :: rest)
    (hparse : env.Parse (locationTarget req first (resp.Header.Get "Location")) = .ok u) :
    ∃ r, getRedirectRequest env (some req) (some resp) = .ok r ∧ r.URL = u ∧
      r.Method = req.Method ∧ r.Body = req.Body ∧
      r.Header.Values "Content-Type" = req.Header.Values "Content-Type" ∧
      r.Header.Values "Content-Length" = req.Header.Values "Content-Length" := by
  refine ⟨_, getRedirectRequest_ok env req resp first rest u hloc hparse, ?_⟩
  simp only [hstatus, if_false, true_and]
  split_ifs
  · exact ⟨rfl, rfl⟩
  · exact ⟨Header.Values_Del_other _ _ _ (by decide), Header.Values_Del_other _ _ _ (by decide)⟩

/-- C5, the example: a `POST` with a body answered by 301 with `Location:
https://b.example/y`. -/
theorem getRedirectRequest_no_downgrade_witness :
    ∃ r, getRedirectRequest sampleEnv (some postRequest)
        (some (redirectTo 301 "https://b.example/y")) = .ok r ∧
      r.URL = ⟨"https", "b.example", "/y"⟩ ∧
      r.Method = postRequest.Method ∧ r.Body = postRequest.Body ∧
      r.Header.Values "Content-Type" = postRequest.Header.Values "Content-Type" ∧
      r.Header.Values "Content-Length" = postRequest.Header.Values "Content-Length" :=
  getRedirectRequest_no_downgrade sampleEnv postRequest (redirectTo 301 "https://b.example/y")
    'h' "ttps://b.example/y".data ⟨"https", "b.example", "/y"⟩ (by decide) (by decide) (by rfl)

/-! ## The loop -/

/-- C9: when the policy's predicate answers false for the current request and response,
`redirectRequest` returns that response with a nil error and forwards nothing more, whatever
the response and the hop count. -/
theorem redirectRequest_predicate_false (env : Env) (pipeline : Pipeline)
    (reqOption : RedirectHandlerOptions) (sent : List Request) (req : Request)
    (response : Option Response) (redirectCount : Int)
    (f : Request → Option Response → Bool)
    (hpred : reqOption.ShouldRedirect = some f) (hfalse : f req response = false) :
    redirectRequest env pipeline reqOption sent req response redirectCount =
      ⟨.returned response none, sent⟩ := by
  apply redirectRequest_stop
  simp [shouldRedirect, RedirectHandlerOptions.GetShouldRedirect, hpred, hfalse]

/-- C9, the example: a 302 response at hop count 0 of 5 is returned unfollowed when the
predicate declines. -/
theorem redirectRequest_predicate_false_witness :
    isRedirectResponse (some (redirectTo 302 "/y")) = true ∧
    (0 : Int) < GetMaxRedirect (some ⟨some (fun _ _ => false), 5⟩) ∧
    redirectRequest sampleEnv alwaysRedirect ⟨some (fun _ _ => false), 5⟩ [postRequest]
        postRequest (some (redirectTo 302 "/y")) 0 =
      ⟨.returned (some (redirectTo 302 "/y")) none, [postRequest]⟩ :=
  ⟨by decide, by decide,
    redirectRequest_predicate_false sampleEnv alwaysRedirect ⟨some (fun _ _ => false), 5⟩
      [postRequest] postRequest (some (redirectTo 302 "/y")) 0 (fun _ _ => false) rfl rfl⟩

/-- Once every recorded call of the pipeline was answered without error, an error of a call
recorded by `redirectRequest` is what `redirectRequest` returns, and that call is the last. -/
theorem redirectRequest_error_last (env : Env) (pipeline : Pipeline)
    (reqOption : RedirectHandlerOptions) (sent : List Request) (req : Request)
    (response : Option Response) (redirectCount : Int)
    (hclean : ∀ i r, sent[i]? = some r → (pipeline (sent.take i) r).2 = none)
    (i : Nat) (r : Request) (result : Option Response) (err : String)
    (hcall : (redirectRequest env pipeline reqOption sent req response redirectCount).sent[i]? =
      some r)
    (herr : pipeline
      ((redirectRequest env pipeline reqOption sent req response redirectCount).sent.take i) r =
        (result, some err)) :
    (redirectRequest env pipeline reqOption sent req response redirectCount).result =
        .returned result (some err) ∧
      (redirectRequest env pipeline reqOption sent req response redirectCount).sent.length =
        i + 1 := by
  induction sent, req, response, redirectCount
    using redirectRequest.induct env pipeline reqOption with
  | case1 sent req response count follow e rebuild =>
    rw [redirectRequest_rebuildError _ _ _ _ _ _ _ e follow rebuild] at hcall herr
    have := hclean i r hcall
    simp [herr] at this
  | case2 sent req response count follow rebuild =>
    rw [redirectRequest_fault _ _ _ _ _ _ _ follow rebuild] at hcall herr
    have := hclean i r hcall
    simp [herr] at this
  | case3 sent req response count follow rebuilt rebuild res e next =>
    rw [redirectRequest_nextError _ _ _ _ _ _ _ _ _ e follow rebuild next] at hcall herr ⊢
    simp only at hcall herr ⊢
    rcases Nat.lt_trichotomy i sent.length with hlt | heq | hgt
    · rw [List.getElem?_append_left hlt] at hcall
      rw [List.take_append_of_le_length (Nat.le_of_lt hlt)] at herr
      have := hclean i r hcall
      simp [herr] at this
    · subst heq
      simp only [List.getElem?_concat_length, Option.some.injEq] at hcall
      subst hcall
      simp only [List.take_left'] at herr
      rw [next] at herr
      simp only [Prod.mk.injEq, Option.some.injEq] at herr
      simp [herr.1, herr.2]
    · have : (sent ++ [rebuilt])[i]? = none := by
        apply List.getElem?_eq_none
        simp; omega
      rw [this] at hcall
      exact absurd hcall (by simp)
  | case4 sent req response count follow count' rebuilt rebuild res next ih =>
    rw [redirectRequest_next _ _ _ _ _ _ _ _ _ follow rebuild next] at hcall herr ⊢
    apply ih _ hcall herr
    intro j q hq
    rcases Nat.lt_or_ge j sent.length with hlt | hge
    · rw [List.getElem?_append_left hlt] at hq
      rw [List.take_append_of_le_length (Nat.le_of_lt hlt)]
      exact hclean j q hq
    · have hj : j = sent.length := by
        by_contra hne
        have : (sent ++ [rebuilt])[j]? = none := by
          apply List.getElem?_eq_none
          simp; omega
        rw [this] at hq
        exact absurd hq (by simp)
      subst hj
      simp only [List.getElem?_concat_length, Option.some.injEq] at hq
      subst hq
      simp [next]
  | case5 sent req response count stop =>
    rw [redirectRequest_stop _ _ _ _ _ _ _ (by simpa using stop)] at hcall herr
    have := hclean i r hcall
    simp [herr] at this

/-- C8: when a call of `pipeline.Next` made by `Intercept`, the first one or the one for a
rebuilt request at any hop, returns a non-nil error, `Intercept` returns the response and the
error of that call, and that call is the last one. -/
theorem Intercept_pipeline_error (env : Env) (middleware : RedirectHandler)
    (pipeline : Pipeline) (req : Request) (i : Nat) (r : Request) (result : Option Response)
    (err : String)
    (hcall : (Intercept env middleware pipeline req).sent[i]? = some r)
    (herr : pipeline ((Intercept env middleware pipeline req).sent.take i) r =
      (result, some err)) :
    (Intercept env middleware pipeline req).result = .returned result (some err) ∧
      (Intercept env middleware pipeline req).sent.length = i + 1 := by
  unfold Intercept at hcall herr ⊢
  rcases hnext : pipeline [] req with ⟨response, _ | e⟩
  · simp only [hnext] at hcall herr ⊢
    apply redirectRequest_error_last _ _ _ _ _ _ _ _ i r result err hcall herr
    intro j q hq
    cases j with
    | zero =>
      simp only [List.getElem?_cons_zero, Option.some.injEq] at hq
      subst hq
      simp [hnext]
    | succ j => simp at hq
  · simp only [hnext] at hcall herr ⊢
    cases i with
    | zero =>
      simp only [List.getElem?_cons_zero, Option.some.injEq] at hcall
      subst hcall
      simp only [List.take_zero] at herr
      rw [hnext] at herr
      simp only [Prod.mk.injEq, Option.some.injEq] at herr
      simp [herr.1, herr.2]
    | succ i => simp at hcall


/-- C8, the example: a transport error at hop 2 of a potential 4-hop chain is returned with the
response of hop 2, and hops 3 and 4 are not attempted. -/
theorem Intercept_pipeline_error_witness :
    (Intercept sampleEnv NewRedirectHandler failsAtHopTwo postRequest).result =
        .returned (some (redirectTo 302 "/z")) (some "connection reset") ∧
      (Intercept sampleEnv NewRedirectHandler failsAtHopTwo postRequest).sent.length = 2 + 1 :=
  Intercept_pipeline_error sampleEnv NewRedirectHandler failsAtHopTwo postRequest 2
    { postRequest with URL := ⟨"https", "a.example", "/y"⟩ } (some (redirectTo 302 "/z"))
    "connection reset" (by decide!) (by decide!)

theorem nextHop_eq_some (env : Env) (pipeline : Pipeline) (h h' : Hop)
    (hstep : nextHop env pipeline h = some h') :
    ∃ rebuilt result, getRedirectRequest env (some h.req) h.response = .ok rebuilt ∧
      pipeline h.sent rebuilt = (result, none) ∧ h' = ⟨h.sent ++ [rebuilt], rebuilt, result⟩ := by
  unfold nextHop at hstep
  split at hstep
  · rename_i rebuilt hre
    split at hstep
    · rename_i result hnext
      exact ⟨rebuilt, result, hre, hnext, by simpa using hstep.symm⟩
    · simp at hstep
  · simp at hstep

theorem hopsFrom_sent_length (env : Env) (pipeline : Pipeline) (k : Nat) :
    ∀ h last, hopsFrom env pipeline k h = some last → last.sent.length = h.sent.length + k := by
  induction k with
  | zero =>
    intro h last hk
    simp only [hopsFrom, Option.some.injEq] at hk
    simp [hk]
  | succ k ih =>
    intro h last hk
    simp only [hopsFrom] at hk
    cases hstep : nextHop env pipeline h with
    | none => simp [hstep] at hk
    | some h' =>
      simp only [hstep, Option.some_bind] at hk
      obtain ⟨rebuilt, result, -, -, rfl⟩ := nextHop_eq_some env pipeline h h' hstep
      rw [ih _ last hk]
      simp; omega

/-- With a policy that never declines, `redirectRequest` follows a chain of redirect responses
up to the hop cap and returns the response reached there. -/
theorem redirectRequest_follows_to_cap (env : Env) (pipeline : Pipeline)
    (reqOption : RedirectHandlerOptions)
    (hpred : ∀ r s, shouldRedirect reqOption r s = true) (n : Nat) :
    ∀ (h last : Hop) (redirectCount : Int),
      redirectCount + n = GetMaxRedirect (some reqOption) →
      (∀ k ≤ n, (hopsFrom env pipeline k h).map (fun p => isRedirectResponse p.response) =
        some true) →
      hopsFrom env pipeline n h = some last →
      redirectRequest env pipeline reqOption h.sent h.req h.response redirectCount =
        ⟨.returned last.response none, last.sent⟩ := by
  induction n with
  | zero =>
    intro h last count hcount _ hlast
    simp only [hopsFrom, Option.some.injEq] at hlast
    subst hlast
    apply redirectRequest_stop
    have : ¬ count < GetMaxRedirect (some reqOption) := by omega
    simp [this]
  | succ n ih =>
    intro h last count hcount hred hlast
    have h0 := hred 0 (Nat.zero_le _)
    simp only [hopsFrom, Option.map_some', Option.some.injEq] at h0
    have hlt : count < GetMaxRedirect (some reqOption) := by
      push_cast at hcount; omega
    simp only [hopsFrom] at hlast
    cases hstep : nextHop env pipeline h with
    | none => simp [hstep] at hlast
    | some h' =>
      simp only [hstep, Option.some_bind] at hlast
      obtain ⟨rebuilt, result, hre, hnext, rfl⟩ := nextHop_eq_some env pipeline h h' hstep
      rw [redirectRequest_next _ _ _ _ _ _ _ _ _ (by simp [h0, hlt, hpred]) hre hnext]
      apply ih ⟨h.sent ++ [rebuilt], rebuilt, result⟩ last (count + 1)
        (by push_cast at hcount; omega) _ hlast
      intro k hk
      have := hred (k + 1) (Nat.succ_le_succ hk)
      simpa only [hopsFrom, hstep, Option.some_bind] using this

/-- C7: with an absent or always-true predicate and effective hop count `m`, when the original
request and each of the first `m` rebuilt requests is answered by a redirect response without
error (and the first `m` of these responses can be rebuilt from), `Intercept` returns the
response to the `m`-th rebuilt request, itself a redirect response, with a nil error, having
forwarded the original request and `m` rebuilt ones. -/
theorem Intercept_stops_at_cap (env : Env) (middleware : RedirectHandler)
    (pipeline : Pipeline) (req : Request) (m : Nat) (last : Hop)
    (hpred : (resolveOptions env middleware req).ShouldRedirect = none ∨
      (resolveOptions env middleware req).ShouldRedirect = some (fun _ _ => true))
    (hm : GetMaxRedirect (some (resolveOptions env middleware req)) = m)
    (hredirects : ∀ k ≤ m, (chain env pipeline req k).map
      (fun p => isRedirectResponse p.response) = some true)
    (hlast : chain env pipeline req m = some last) :
    Intercept env middleware pipeline req = ⟨.returned last.response none, last.sent⟩ ∧
      isRedirectResponse last.response = true ∧ last.sent.length = m + 1 := by
  have hall : ∀ r s, shouldRedirect (resolveOptions env middleware req) r s = true := by
    intro r s
    rcases hpred with hp | hp <;>
      simp [shouldRedirect, RedirectHandlerOptions.GetShouldRedirect, hp]
  have hlastRed := hredirects m (Nat.le_refl m)
  rw [hlast] at hlastRed
  simp only [Option.map_some', Option.some.injEq] at hlastRed
  unfold chain at hredirects hlast
  unfold Intercept
  rcases hnext : pipeline [] req with ⟨response, _ | e⟩
  · simp only [hnext] at hredirects hlast ⊢
    refine ⟨?_, hlastRed, ?_⟩
    · exact redirectRequest_follows_to_cap env pipeline _ hall m ⟨[req], req, response⟩ last 0
        (by omega) hredirects hlast
    · simpa [Nat.add_comm] using hopsFrom_sent_length env pipeline m _ last hlast
  · simp [hnext] at hlast

/-- C7, the example: the default handler, answered by a redirect every time, forwards the
original request and five rebuilt ones and returns the sixth redirect response. -/
theorem Intercept_stops_at_cap_witness :
    Intercept sampleEnv NewRedirectHandler alwaysRedirect postRequest =
      ⟨.returned (some (redirectTo 302 "/y")) none,
        postRequest :: List.replicate 5 { postRequest with URL := ⟨"https", "a.example", "/y"⟩ }⟩ ∧
      isRedirectResponse (some (redirectTo 302 "/y")) = true ∧
      (postRequest :: List.replicate 5
        { postRequest with URL := ⟨"https", "a.example", "/y"⟩ }).length = 5 + 1 :=
  Intercept_stops_at_cap sampleEnv NewRedirectHandler alwaysRedirect postRequest 5
    ⟨postRequest :: List.replicate 5 { postRequest with URL := ⟨"https", "a.example", "/y"⟩ },
      { postRequest with URL := ⟨"https", "a.example", "/y"⟩ }, some (redirectTo 302 "/y")⟩
    (Or.inr rfl) (by decide) (by decide) (by decide)

/-! ## The read of the first byte of the `Location` value -/

theorem data_eq_nil_iff (s : String) : s.data = [] ↔ s = "" := by
  constructor
  · intro h
    exact String.ext (by simpa using h)
  · intro h
    subst h
    rfl

/-- A redirect response is non-nil and its `Location` value has a first character. -/
theorem isRedirectResponse_location (response : Option Response)
    (hred : isRedirectResponse response = true) :
    ∃ r first rest, response = some r ∧ (r.Header.Get "Location").data = first :: rest := by
  cases response with
  | none => simp [isRedirectResponse] at hred
  | some r =>
    by_cases hloc : r.Header.Get "Location" = ""
    · simp [isRedirectResponse, locationHeader, hloc] at hred
    · cases hdata : (r.Header.Get "Location").data with
      | nil => exact absurd ((data_eq_nil_iff _).1 hdata) hloc
      | cons first rest => exact ⟨r, first, rest, rfl, hdata⟩

/-- The out-of-range read happens exactly for a non-nil request and a non-nil response whose
`Location` value is empty. -/
theorem getRedirectRequest_fault_iff (env : Env) (request : Option Request)
    (response : Option Response) :
    getRedirectRequest env request response = .indexOutOfRange ↔
      ∃ req resp, request = some req ∧ response = some resp ∧
        resp.Header.Get "Location" = "" := by
  cases request with
  | none => simp [getRedirectRequest]
  | some req =>
    cases response with
    | none => simp [getRedirectRequest]
    | some resp =>
      simp only [getRedirectRequest, locationHeader, Option.some.injEq, exists_and_left,
        exists_eq_left']
      cases hdata : (resp.Header.Get "Location").data with
      | nil => simpa using (data_eq_nil_iff _).1 hdata
      | cons first rest =>
        have hne : resp.Header.Get "Location" ≠ "" := by
          intro h
          rw [h] at hdata
          exact absurd hdata (by simp)
        simp only [hne, iff_false]
        cases env.Parse (locationTarget req first (resp.Header.Get "Location")) <;> simp

/-- The loop never runs into the out-of-range read. -/
theorem redirectRequest_not_faulted (env : Env) (pipeline : Pipeline)
    (reqOption : RedirectHandlerOptions) (sent : List Request) (req : Request)
    (response : Option Response) (redirectCount : Int) :
    (redirectRequest env pipeline reqOption sent req response redirectCount).result ≠
      .faulted := by
  induction sent, req, response, redirectCount
    using redirectRequest.induct env pipeline reqOption with
  | case1 sent req response count follow err rebuild =>
    rw [redirectRequest_rebuildError _ _ _ _ _ _ _ err follow rebuild]
    simp
  | case2 sent req response count follow rebuild =>
    exfalso
    simp only [Bool.and_eq_true, decide_eq_true_eq] at follow
    obtain ⟨r, first, rest, rfl, hloc⟩ := isRedirectResponse_location response follow.1.1
    obtain ⟨_, resp, -, hresp, hempty⟩ := (getRedirectRequest_fault_iff env _ _).1 rebuild
    simp only [Option.some.injEq] at hresp
    subst hresp
    rw [hempty] at hloc
    exact absurd hloc (by simp)
  | case3 sent req response count follow rebuilt rebuild result err next =>
    rw [redirectRequest_nextError _ _ _ _ _ _ _ _ _ err follow rebuild next]
    simp
  | case4 sent req response count follow count' rebuilt rebuild result next ih =>
    rw [redirectRequest_next _ _ _ _ _ _ _ _ _ follow rebuild next]
    exact ih
  | case5 sent req response count stop =>
    rw [redirectRequest_stop _ _ _ _ _ _ _ (by simpa using stop)]
    simp

/-- C19: `redirectRequest` calls `getRedirectRequest` only with a non-nil response whose
`Location` value is not empty, so neither `redirectRequest` nor `Intercept` runs into the
out-of-range read of `locationHeaderValue[0]`; `getRedirectRequest` called directly runs into
it exactly for a non-nil request and a non-nil response whose `Location` value is absent or
empty. -/
theorem getRedirectRequest_index_in_range (env : Env) (pipeline : Pipeline)
    (reqOption : RedirectHandlerOptions) (sent : List Request) (req : Request)
    (response : Option Response) (redirectCount : Int) (middleware : RedirectHandler)
    (request : Option Request) :
    ((isRedirectResponse response &&
        decide (redirectCount < GetMaxRedirect (some reqOption)) &&
        shouldRedirect reqOption req response) = true →
      (∃ r, response = some r ∧ r.Header.Get "Location" ≠ "") ∧
        getRedirectRequest env (some req) response ≠ .indexOutOfRange) ∧
    (redirectRequest env pipeline reqOption sent req response redirectCount).result ≠
      .faulted ∧
    (Intercept env middleware pipeline req).result ≠ .faulted ∧
    (getRedirectRequest env request response = .indexOutOfRange ↔
      ∃ q resp, request = some q ∧ response = some resp ∧
        resp.Header.Get "Location" = "") := by
  refine ⟨?_, redirectRequest_not_faulted _ _ _ _ _ _ _, ?_,
    getRedirectRequest_fault_iff env request response⟩
  · intro follow
    simp only [Bool.and_eq_true, decide_eq_true_eq] at follow
    obtain ⟨r, first, rest, rfl, hloc⟩ := isRedirectResponse_location response follow.1.1
    have hne : r.Header.Get "Location" ≠ "" := by
      intro h
      rw [h] at hloc
      exact absurd hloc (by simp)
    refine ⟨⟨r, rfl, hne⟩, ?_⟩
    intro hfault
    obtain ⟨_, resp, -, hresp, hempty⟩ := (getRedirectRequest_fault_iff env _ _).1 hfault
    simp only [Option.some.injEq] at hresp
    subst hresp
    exact hne hempty
  · unfold Intercept
    rcases hnext : pipeline [] req with ⟨first, _ | e⟩
    · exact redirectRequest_not_faulted _ _ _ _ _ _ _
    · simp

/-! ## How a run ends -/

/-- C12: when the loop follows a redirect response and the `Location` value cannot be parsed,
`getRedirectRequest` fails with the parse error, and `redirectRequest` returns the current
response with that error without forwarding anything more. -/
theorem redirectRequest_rebuild_failure (env : Env) (pipeline : Pipeline)
    (reqOption : RedirectHandlerOptions) (sent : List Request) (req : Request)
    (resp : Response) (redirectCount : Int) (first : Char) (rest : List Char) (err : String)
    (hred : isRedirectResponse (some resp) = true)
    (hcount : redirectCount < GetMaxRedirect (some reqOption))
    (hpred : shouldRedirect reqOption req (some resp) = true)
    (hloc : (resp.Header.Get "Location").data = first :: rest)
    (hparse : env.Parse (locationTarget req first (resp.Header.Get "Location")) = .error err) :
    getRedirectRequest env (some req) (some resp) = .error err ∧
      redirectRequest env pipeline reqOption sent req (some resp) redirectCount =
        ⟨.returned (some resp) (some err), sent⟩ := by
  have hre : getRedirectRequest env (some req) (some resp) = .error err := by
    simp [getRedirectRequest, locationHeader, hloc, hparse]
  exact ⟨hre, redirectRequest_rebuildError _ _ _ _ _ _ _ err (by simp [hred, hcount, hpred]) hre⟩

/-- C12, the example: a 302 whose `Location` is `://bad` is returned with the parse error. -/
theorem redirectRequest_rebuild_failure_witness :
    getRedirectRequest sampleEnv (some postRequest) (some (redirectTo 302 "://bad")) =
        .error "missing protocol scheme" ∧
      redirectRequest sampleEnv alwaysRedirect NewRedirectHandler.options [postRequest]
          postRequest (some (redirectTo 302 "://bad")) 0 =
        ⟨.returned (some (redirectTo 302 "://bad")) (some "missing protocol scheme"),
          [postRequest]⟩ :=
  redirectRequest_rebuild_failure sampleEnv alwaysRedirect NewRedirectHandler.options
    [postRequest] postRequest (redirectTo 302 "://bad") 0 ':' "//bad".data
    "missing protocol scheme" (by decide) (by decide) (by rfl) (by decide) (by rfl)

/-- A run of the loop that ends without error ends on a response that is not a redirect, or
at the hop cap, or on a response the predicate declined. -/
theorem redirectRequest_outcome (env : Env) (pipeline : Pipeline)
    (reqOption : RedirectHandlerOptions) (sent : List Request) (req : Request)
    (response : Option Response) (redirectCount : Int)
    (hlast : sent.getLast? = some req)
    (hlen : (sent.length : Int) = redirectCount + 1)
    (hle : redirectCount ≤ GetMaxRedirect (some reqOption)) :
    ∃ resp err,
      (redirectRequest env pipeline reqOption sent req response redirectCount).result =
        .returned resp err ∧
      (err ≠ none ∨ isRedirectResponse resp = false ∨
        (isRedirectResponse resp = true ∧
          ((redirectRequest env pipeline reqOption sent req response redirectCount).sent.length
            : Int) = 1 + GetMaxRedirect (some reqOption)) ∨
        (isRedirectResponse resp = true ∧ ∃ last,
          (redirectRequest env pipeline reqOption sent req response redirectCount).sent.getLast?
            = some last ∧ shouldRedirect reqOption last resp = false)) := by
  induction sent, req, response, redirectCount
    using redirectRequest.induct env pipeline reqOption with
  | case1 sent req response count follow err rebuild =>
    rw [redirectRequest_rebuildError _ _ _ _ _ _ _ err follow rebuild]
    exact ⟨response, some err, rfl, Or.inl (by simp)⟩
  | case2 sent req response count follow rebuild =>
    exact absurd (by rw [redirectRequest_fault _ _ _ _ _ _ _ follow rebuild])
      (redirectRequest_not_faulted env pipeline reqOption sent req response count)
  | case3 sent req response count follow rebuilt rebuild result err next =>
    rw [redirectRequest_nextError _ _ _ _ _ _ _ _ _ err follow rebuild next]
    exact ⟨result, some err, rfl, Or.inl (by simp)⟩
  | case4 sent req response count follow count' rebuilt rebuild result next ih =>
    rw [redirectRequest_next _ _ _ _ _ _ _ _ _ follow rebuild next]
    simp only [Bool.and_eq_true, decide_eq_true_eq] at follow
    apply ih
    · simp
    · simp only [List.length_append, List.length_singleton, Nat.cast_add, Nat.cast_one]
      omega
    · have := follow.1.2
      omega
  | case5 sent req response count stop =>
    rw [redirectRequest_stop _ _ _ _ _ _ _ (by simpa using stop)]
    refine ⟨response, none, rfl, Or.inr ?_⟩
    by_cases hred : isRedirectResponse response = true
    · right
      by_cases hlt : count < GetMaxRedirect (some reqOption)
      · right
        refine ⟨hred, req, hlast, ?_⟩
        simpa [hred, hlt] using stop
      · left
        refine ⟨hred, ?_⟩
        simp only
        omega
    · left
      simpa using hred

/-- C11 (as amended): `Intercept` always returns, and its outcome is of one of four kinds: a
non-nil error paired with a response; a nil error with a response that is not a redirect
response; a nil error with a redirect response when as many rebuilt requests were forwarded as
the effective `maxRedirects`; a nil error with a redirect response for which the policy's
predicate answered false. -/
theorem Intercept_outcome (env : Env) (middleware : RedirectHandler) (pipeline : Pipeline)
    (req : Request) :
    ∃ resp err, (Intercept env middleware pipeline req).result = .returned resp err ∧
      (err ≠ none ∨ isRedirectResponse resp = false ∨
        (isRedirectResponse resp = true ∧
          ((Intercept env middleware pipeline req).sent.length : Int) =
            1 + GetMaxRedirect (some (resolveOptions env middleware req))) ∨
        (isRedirectResponse resp = true ∧ ∃ last,
          (Intercept env middleware pipeline req).sent.getLast? = some last ∧
          shouldRedirect (resolveOptions env middleware req) last resp = false)) := by
  unfold Intercept
  rcases hnext : pipeline [] req with ⟨response, _ | e⟩
  · exact redirectRequest_outcome env pipeline _ [req] req response 0 rfl (by simp)
      (by have := (GetMaxRedirect_bounds (some (resolveOptions env middleware req))).1; omega)
  · exact ⟨response, some e, rfl, Or.inl (by simp)⟩

/-- C11, as stated, fails: with a predicate that declines, `Intercept` returns a redirect
response with a nil error although no rebuilt request was forwarded, the cap being 5. -/
theorem Intercept_outcome_counterexample :
    Intercept sampleEnv ⟨declining⟩ alwaysRedirect postRequest =
      ⟨.returned (some (redirectTo 302 "/y")) none, [postRequest]⟩ ∧
    isRedirectResponse (some (redirectTo 302 "/y")) = true ∧
    GetMaxRedirect (some (resolveOptions sampleEnv ⟨declining⟩ postRequest)) = 5 ∧
    ¬ (([postRequest].length : Int) =
      1 + GetMaxRedirect (some (resolveOptions sampleEnv ⟨declining⟩ postRequest))) := by
  refine ⟨by decide!, by decide, by decide, by decide⟩

/-! ## The policy of a run -/

/-- The rebuilt request depends on the environment through `url.Parse` and
`strings.EqualFold` only. -/
theorem getRedirectRequest_env_congr (env env' : Env) (hparse : env.Parse = env'.Parse)
    (hfold : env.EqualFold = env'.EqualFold) (request : Option Request)
    (response : Option Response) :
    getRedirectRequest env request response = getRedirectRequest env' request response := by
  unfold getRedirectRequest
  rw [hparse, hfold]

/-- Two runs of the loop agree when their environments parse and fold alike and their policies
have the same effective hop count and give the same answers. -/
theorem redirectRequest_congr (env env' : Env) (pipeline : Pipeline)
    (reqOption reqOption' : RedirectHandlerOptions)
    (hparse : env.Parse = env'.Parse) (hfold : env.EqualFold = env'.EqualFold)
    (hmax : GetMaxRedirect (some reqOption) = GetMaxRedirect (some reqOption'))
    (hpred : ∀ r s, shouldRedirect reqOption r s = shouldRedirect reqOption' r s)
    (sent : List Request) (req : Request) (response : Option Response) (redirectCount : Int) :
    redirectRequest env pipeline reqOption sent req response redirectCount =
      redirectRequest env' pipeline reqOption' sent req response redirectCount := by
  induction sent, req, response, redirectCount
    using redirectRequest.induct env pipeline reqOption with
  | case1 sent req response count follow err rebuild =>
    rw [redirectRequest_rebuildError _ _ _ _ _ _ _ err follow rebuild,
      redirectRequest_rebuildError _ _ _ _ _ _ _ err (by rw [← hmax, ← hpred]; exact follow)
        (by rw [← getRedirectRequest_env_congr env env' hparse hfold]; exact rebuild)]
  | case2 sent req response count follow rebuild =>
    rw [redirectRequest_fault _ _ _ _ _ _ _ follow rebuild,
      redirectRequest_fault _ _ _ _ _ _ _ (by rw [← hmax, ← hpred]; exact follow)
        (by rw [← getRedirectRequest_env_congr env env' hparse hfold]; exact rebuild)]
  | case3 sent req response count follow rebuilt rebuild result err next =>
    rw [redirectRequest_nextError _ _ _ _ _ _ _ _ _ err follow rebuild next,
      redirectRequest_nextError _ _ _ _ _ _ _ _ _ err (by rw [← hmax, ← hpred]; exact follow)
        (by rw [← getRedirectRequest_env_congr env env' hparse hfold]; exact rebuild) next]
  | case4 sent req response count follow count' rebuilt rebuild result next ih =>
    rw [redirectRequest_next _ _ _ _ _ _ _ _ _ follow rebuild next,
      redirectRequest_next _ _ _ _ _ _ _ _ _ (by rw [← hmax, ← hpred]; exact follow)
        (by rw [← getRedirectRequest_env_congr env env' hparse hfold]; exact rebuild) next]
    exact ih
  | case5 sent req response count stop =>
    have stop' : (isRedirectResponse response &&
        decide (count < GetMaxRedirect (some reqOption)) &&
        shouldRedirect reqOption req response) = false := by simpa using stop
    rw [redirectRequest_stop _ _ _ _ _ _ _ stop',
      redirectRequest_stop _ _ _ _ _ _ _ (by rw [← hmax, ← hpred]; exact stop')]

/-- C13: with `ov` the override carried by the request's context, if any, `Intercept` resolves
the policy to the override when there is one and to the handler's options `d` otherwise, and
its run (result and forwarded requests) is that of a handler constructed with the resolved
policy in an environment where no context carries an override; with an override the handler's
own options have no influence. -/
theorem Intercept_policy_resolution (env : Env) (d : RedirectHandlerOptions)
    (pipeline : Pipeline) (req : Request) (ov : Option RedirectHandlerOptions)
    (hov : env.Value req.Context = ov) :
    resolveOptions env ⟨d⟩ req = ov.getD d ∧
    Intercept env ⟨d⟩ pipeline req =
      Intercept { env with Value := fun _ => none } (NewRedirectHandlerWithOptions (ov.getD d))
        pipeline req ∧
    (ov.isSome = true → ∀ d', Intercept env ⟨d'⟩ pipeline req = Intercept env ⟨d⟩ pipeline req) := by
  have hres : ∀ d', resolveOptions env ⟨d'⟩ req = ov.getD d' := by
    intro d'
    unfold resolveOptions
    rw [hov]
    cases ov <;> rfl
  refine ⟨hres d, ?_, ?_⟩
  · unfold Intercept
    rcases hnext : pipeline [] req with ⟨response, _ | e⟩
    · simp only [hres]
      apply redirectRequest_congr
      · rfl
      · rfl
      · rfl
      · intro _ _; rfl
    · rfl
  · intro hsome d'
    unfold Intercept
    rcases hnext : pipeline [] req with ⟨response, _ | e⟩
    · simp only [hres]
      cases ov with
      | none => simp at hsome
      | some o => rfl
    · rfl

/-- C13, the example: a handler with the default options, given a request whose context
carries an override allowing two hops, forwards two rebuilt requests, as a handler constructed
with the override does. -/
theorem Intercept_policy_resolution_witness :
    (resolveOptions overrideEnv NewRedirectHandler overriddenRequest =
        (some (⟨none, 2⟩ : RedirectHandlerOptions)).getD NewRedirectHandler.options ∧
      Intercept overrideEnv NewRedirectHandler alwaysRedirect overriddenRequest =
        Intercept { overrideEnv with Value := fun _ => none }
          (NewRedirectHandlerWithOptions
            ((some (⟨none, 2⟩ : RedirectHandlerOptions)).getD NewRedirectHandler.options))
          alwaysRedirect overriddenRequest ∧
      ((some (⟨none, 2⟩ : RedirectHandlerOptions)).isSome = true →
        ∀ d', Intercept overrideEnv ⟨d'⟩ alwaysRedirect overriddenRequest =
          Intercept overrideEnv NewRedirectHandler alwaysRedirect overriddenRequest)) ∧
    (Intercept overrideEnv NewRedirectHandler alwaysRedirect overriddenRequest).sent.length =
      3 :=
  ⟨Intercept_policy_resolution overrideEnv NewRedirectHandler.options alwaysRedirect
    overriddenRequest (some ⟨none, 2⟩) rfl, by decide!⟩

/-- C14: `NewRedirectHandler` holds an always-true predicate and `MaxRedirects` 5, and a
handler built by `NewRedirectHandlerWithOptions` from a nil predicate and `MaxRedirects` 0 has
the same runs: the same result and the same forwarded requests, for every environment,
pipeline and request. -/
theorem NewRedirectHandler_defaults (env : Env) (pipeline : Pipeline) (req : Request) :
    NewRedirectHandler.options.ShouldRedirect = some (fun _ _ => true) ∧
    NewRedirectHandler.options.MaxRedirects = 5 ∧
    GetMaxRedirect (some NewRedirectHandler.options) = 5 ∧
    GetMaxRedirect (some (NewRedirectHandlerWithOptions ⟨none, 0⟩).options) = 5 ∧
    Intercept env NewRedirectHandler pipeline req =
      Intercept env (NewRedirectHandlerWithOptions ⟨none, 0⟩) pipeline req := by
  refine ⟨rfl, rfl, rfl, rfl, ?_⟩
  unfold Intercept
  rcases hnext : pipeline [] req with ⟨response, _ | e⟩
  · simp only
    unfold resolveOptions
    cases env.Value req.Context with
    | some o => rfl
    | none =>
      apply redirectRequest_congr
      · rfl
      · rfl
      · rfl
      · intro _ _; rfl
  · rfl

/-! ## Hop by hop -/

/-- A request is returned only for a `Location` value with a first character and a target
that parses. -/
theorem getRedirectRequest_ok_inv (env : Env) (req : Request) (response : Option Response)
    (r : Request) (hok : getRedirectRequest env (some req) response = .ok r) :
    ∃ resp first rest u, response = some resp ∧
      (resp.Header.Get "Location").data = first :: rest ∧
      env.Parse (locationTarget req first (resp.Header.Get "Location")) = .ok u := by
  cases response with
  | none => simp [getRedirectRequest] at hok
  | some resp =>
    cases hdata : (resp.Header.Get "Location").data with
    | nil => simp [getRedirectRequest, locationHeader, hdata] at hok
    | cons first rest =>
      cases hparse : env.Parse (locationTarget req first (resp.Header.Get "Location")) with
      | error e => simp [getRedirectRequest, locationHeader, hdata, hparse] at hok
      | ok u => exact ⟨resp, first, rest, u, rfl, hdata, hparse⟩

/-- The trace stays linked when a request rebuilt from its last request is appended. -/
theorem linked_concat (env : Env) (pipeline : Pipeline) (pre : List Request) (req : Request)
    (response : Option Response) (rebuilt : Request)
    (hresp : pipeline pre req = (response, none))
    (hre : getRedirectRequest env (some req) response = .ok rebuilt)
    (hlinked : ∀ k q, (pre ++ [req])[k + 1]? = some q → ∃ r resp, (pre ++ [req])[k]? = some r ∧
      pipeline ((pre ++ [req]).take k) r = (resp, none) ∧
      getRedirectRequest env (some r) resp = .ok q) :
    ∀ k q, (pre ++ [req] ++ [rebuilt])[k + 1]? = some q →
      ∃ r resp, (pre ++ [req] ++ [rebuilt])[k]? = some r ∧
        pipeline ((pre ++ [req] ++ [rebuilt]).take k) r = (resp, none) ∧
        getRedirectRequest env (some r) resp = .ok q := by
  intro k q hq
  rcases Nat.lt_trichotomy (k + 1) (pre ++ [req]).length with hlt | heq | hgt
  · rw [List.getElem?_append_left hlt] at hq
    obtain ⟨r, resp, hr, hp, hg⟩ := hlinked k q hq
    refine ⟨r, resp, ?_, ?_, hg⟩
    · rw [List.getElem?_append_left (by omega)]
      exact hr
    · rw [List.take_append_of_le_length (by omega)]
      exact hp
  · have hk : k = pre.length := by simpa using heq
    subst hk
    have hq' : q = rebuilt := by
      rw [heq, List.getElem?_concat_length] at hq
      exact (Option.some.inj hq).symm
    subst hq'
    refine ⟨req, response, ?_, ?_, hre⟩
    · rw [List.getElem?_append_left (by simp), List.getElem?_concat_length]
    · rw [List.append_assoc, List.take_left']
      · exact hresp
      · rfl
  · have : (pre ++ [req] ++ [rebuilt])[k + 1]? = none := by
      apply List.getElem?_eq_none
      simp at hgt ⊢
      omega
    rw [this] at hq
    exact absurd hq (by simp)

/-- Every request forwarded by the loop is rebuilt from the request forwarded just before and
the response to it. -/
theorem redirectRequest_linked (env : Env) (pipeline : Pipeline)
    (reqOption : RedirectHandlerOptions) (sent : List Request) (req : Request)
    (response : Option Response) (redirectCount : Int) (pre : List Request)
    (hsent : sent = pre ++ [req]) (hresp : pipeline pre req = (response, none))
    (hlinked : ∀ k q, sent[k + 1]? = some q → ∃ r resp, sent[k]? = some r ∧
      pipeline (sent.take k) r = (resp, none) ∧ getRedirectRequest env (some r) resp = .ok q) :
    ∀ k q,
      (redirectRequest env pipeline reqOption sent req response redirectCount).sent[k + 1]? =
        some q →
      ∃ r resp,
        (redirectRequest env pipeline reqOption sent req response redirectCount).sent[k]? =
          some r ∧
        pipeline ((redirectRequest env pipeline reqOption sent req response
          redirectCount).sent.take k) r = (resp, none) ∧
        getRedirectRequest env (some r) resp = .ok q := by
  induction sent, req, response, redirectCount
    using redirectRequest.induct env pipeline reqOption generalizing pre with
  | case1 sent req response count follow err rebuild =>
    rw [redirectRequest_rebuildError _ _ _ _ _ _ _ err follow rebuild]
    exact hlinked
  | case2 sent req response count follow rebuild =>
    rw [redirectRequest_fault _ _ _ _ _ _ _ follow rebuild]
    exact hlinked
  | case3 sent req response count follow rebuilt rebuild result err next =>
    rw [redirectRequest_nextError _ _ _ _ _ _ _ _ _ err follow rebuild next]
    subst hsent
    exact linked_concat env pipeline pre req response rebuilt hresp rebuild hlinked
  | case4 sent req response count follow count' rebuilt rebuild result next ih =>
    rw [redirectRequest_next _ _ _ _ _ _ _ _ _ follow rebuild next]
    subst hsent
    exact ih (pre ++ [req]) rfl next
      (linked_concat env pipeline pre req response rebuilt hresp rebuild hlinked)
  | case5 sent req response count stop =>
    rw [redirectRequest_stop _ _ _ _ _ _ _ (by simpa using stop)]
    exact hlinked

/-- Every request forwarded by `Intercept` after the first is rebuilt from the request
forwarded just before and the response to it. -/
theorem Intercept_linked (env : Env) (middleware : RedirectHandler) (pipeline : Pipeline)
    (req : Request) (k : Nat) (q : Request)
    (hq : (Intercept env middleware pipeline req).sent[k + 1]? = some q) :
    ∃ r resp, (Intercept env middleware pipeline req).sent[k]? = some r ∧
      pipeline ((Intercept env middleware pipeline req).sent.take k) r = (resp, none) ∧
      getRedirectRequest env (some r) resp = .ok q := by
  unfold Intercept at hq ⊢
  rcases hnext : pipeline [] req with ⟨response, _ | e⟩
  · simp only [hnext] at hq ⊢
    refine redirectRequest_linked env pipeline _ [req] req response 0 [] rfl hnext ?_ k q hq
    intro j p hp
    simp at hp
  · simp [hnext] at hq

/-- The first request forwarded by `Intercept` is the original request. -/
theorem Intercept_sent_head (env : Env) (middleware : RedirectHandler) (pipeline : Pipeline)
    (req : Request) : (Intercept env middleware pipeline req).sent[0]? = some req := by
  obtain ⟨more, hsent, -⟩ := redirectRequest_sent_le env pipeline
    (resolveOptions env middleware req) [req] req (pipeline [] req).1 0
  unfold Intercept
  rcases hnext : pipeline [] req with ⟨response, _ | e⟩
  · rw [hnext] at hsent
    simp only [hsent]
    simp
  · simp

/-- C16: in a run of `Intercept` the first forwarded request is the original one, and the
request forwarded at hop `k + 1` is `getRedirectRequest` applied to the request forwarded at
hop `k` and to the response the pipeline gave to that request, not to the first request of the
chain. -/
theorem Intercept_hop_from_previous (env : Env) (middleware : RedirectHandler)
    (pipeline : Pipeline) (req : Request) (k : Nat) (next : Request)
    (hnext : (Intercept env middleware pipeline req).sent[k + 1]? = some next) :
    (Intercept env middleware pipeline req).sent[0]? = some req ∧
    ∃ prev resp, (Intercept env middleware pipeline req).sent[k]? = some prev ∧
      pipeline ((Intercept env middleware pipeline req).sent.take k) prev = (resp, none) ∧
      getRedirectRequest env (some prev) resp = .ok next :=
  ⟨Intercept_sent_head env middleware pipeline req,
    Intercept_linked env middleware pipeline req k next hnext⟩

/-- C16, the example: `https://a.example/x`, redirected to `https://b.example/y` and then to
`/z`, ends at `https://b.example/z`: the third request is rebuilt from the second. -/
theorem Intercept_hop_from_previous_witness :
    (Intercept sampleEnv NewRedirectHandler crossHostThenPath postRequest).sent.map
        (fun r => r.URL) =
      [⟨"https", "a.example", "/x"⟩, ⟨"https", "b.example", "/y"⟩,
        ⟨"https", "b.example", "/z"⟩] ∧
    (Intercept sampleEnv NewRedirectHandler crossHostThenPath postRequest).sent[0]? =
      some postRequest ∧
    ∃ prev resp,
      (Intercept sampleEnv NewRedirectHandler crossHostThenPath postRequest).sent[1]? =
        some prev ∧
      crossHostThenPath
        ((Intercept sampleEnv NewRedirectHandler crossHostThenPath postRequest).sent.take 1)
        prev = (resp, none) ∧
      getRedirectRequest sampleEnv (some prev) resp = .ok
        { postRequest with
          URL := ⟨"https", "b.example", "/z"⟩
          Header := postRequest.Header.Del "Authorization" } :=
  ⟨by decide!,
    Intercept_hop_from_previous sampleEnv NewRedirectHandler crossHostThenPath postRequest 1
      { postRequest with
        URL := ⟨"https", "b.example", "/z"⟩
        Header := postRequest.Header.Del "Authorization" } (by decide!)⟩

/-! ## Headers along a chain -/

/-- The values of any header in the rebuilt request are those of the original or none. -/
theorem rebuilt_header_values (env : Env) (req : Request) (response : Option Response)
    (r : Request) (hok : getRedirectRequest env (some req) response = .ok r) (key : String) :
    (key ≠ "Authorization" → key ≠ "Content-Type" → key ≠ "Content-Length" →
      r.Header.Values key = req.Header.Values key) ∧
    (r.Header.Values key = none ∨ r.Header.Values key = req.Header.Values key) := by
  obtain ⟨resp, first, rest, u, rfl, hloc, hparse⟩ := getRedirectRequest_ok_inv env req _ r hok
  rw [getRedirectRequest_ok env req resp first rest u hloc hparse] at hok
  have hdel : ∀ (h : Header) (k : String),
      (h.Del k).Values key = none ∨ (h.Del k).Values key = h.Values key := by
    intro h k
    by_cases hk : key = k
    · subst hk
      exact Or.inl (Header.Values_Del_self _ _)
    · exact Or.inr (Header.Values_Del_other _ _ _ hk)
  have hr := (Rebuilt.ok.inj hok).symm
  subst hr
  constructor
  · intro ha hct hcl
    split_ifs <;>
      simp only [Header.Values_Del_other _ _ _ ha, Header.Values_Del_other _ _ _ hct,
        Header.Values_Del_other _ _ _ hcl]
  · split_ifs
    · rcases hdel (req.Header.Del "Content-Type") "Content-Length" with h1 | h1
      · exact Or.inl h1
      · rcases hdel req.Header "Content-Type" with h2 | h2
        · exact Or.inl (h1.trans h2)
        · exact Or.inr (h1.trans h2)
    · rcases hdel ((req.Header.Del "Authorization").Del "Content-Type") "Content-Length"
        with h1 | h1
      · exact Or.inl h1
      · rcases hdel (req.Header.Del "Authorization") "Content-Type" with h2 | h2
        · exact Or.inl (h1.trans h2)
        · rcases hdel req.Header "Authorization" with h3 | h3
          · exact Or.inl ((h1.trans h2).trans h3)
          · exact Or.inr ((h1.trans h2).trans h3)
    · exact Or.inr rfl
    · exact hdel req.Header "Authorization"

/-- C20: when `getRedirectRequest` succeeds, every header of the original request other than
`Authorization`, `Content-Type` and `Content-Length` has the same values in the rebuilt
request, whatever the target, and the rebuilt request has no header the original lacked. -/
theorem getRedirectRequest_other_headers (env : Env) (req : Request) (resp : Response)
    (r : Request) (hok : getRedirectRequest env (some req) (some resp) = .ok r) :
    (∀ key, key ≠ "Authorization" → key ≠ "Content-Type" → key ≠ "Content-Length" →
      r.Header.Values key = req.Header.Values key) ∧
    (∀ key, req.Header.Values key = none → r.Header.Values key = none) := by
  constructor
  · intro key
    exact (rebuilt_header_values env req _ r hok key).1
  · intro key hnone
    rcases (rebuilt_header_values env req _ r hok key).2 with h | h
    · exact h
    · rw [h, hnone]

/-- C20, the example: redirected to another host, the rebuilt request keeps `Cookie: k=v`. -/
theorem getRedirectRequest_other_headers_witness :
    ((∀ key, key ≠ "Authorization" → key ≠ "Content-Type" → key ≠ "Content-Length" →
        ({ postRequest with
            URL := ⟨"https", "b.example", "/y"⟩
            Header := postRequest.Header.Del "Authorization" } : Request).Header.Values key =
          postRequest.Header.Values key) ∧
      (∀ key, postRequest.Header.Values key = none →
        ({ postRequest with
            URL := ⟨"https", "b.example", "/y"⟩
            Header := postRequest.Header.Del "Authorization" } : Request).Header.Values key =
          none)) ∧
    ({ postRequest with
        URL := ⟨"https", "b.example", "/y"⟩
        Header := postRequest.Header.Del "Authorization" } : Request).Header.Values "Cookie" =
      some ["k=v"] :=
  ⟨getRedirectRequest_other_headers sampleEnv postRequest
    (redirectTo 302 "https://b.example/y")
    { postRequest with
      URL := ⟨"https", "b.example", "/y"⟩
      Header := postRequest.Header.Del "Authorization" } (by decide), by decide⟩

/-- A request rebuilt from one without `Authorization` has none. -/
theorem rebuilt_authorization_none (env : Env) (req : Request) (response : Option Response)
    (r : Request) (hok : getRedirectRequest env (some req) response = .ok r)
    (hnone : req.Header.Values "Authorization" = none) :
    r.Header.Values "Authorization" = none := by
  rcases (rebuilt_header_values env req response r hok "Authorization").2 with h | h
  · exact h
  · rw [h, hnone]

/-- A request rebuilt for a target whose host or scheme differs has no `Authorization`. -/
theorem rebuilt_authorization_stripped (env : Env) (req : Request)
    (response : Option Response) (r : Request)
    (hok : getRedirectRequest env (some req) response = .ok r)
    (hdiff : env.EqualFold r.URL.Host req.URL.Host = false ∨
      env.EqualFold r.URL.Scheme req.URL.Scheme = false) :
    r.Header.Values "Authorization" = none := by
  obtain ⟨resp, first, rest, u, rfl, hloc, hparse⟩ := getRedirectRequest_ok_inv env req _ r hok
  obtain ⟨r', hr', hurl, hauth⟩ := rebuilt_authorization_values env req resp first rest u hloc hparse
  rw [hok] at hr'
  have hr := Rebuilt.ok.inj hr'
  subst hr
  rw [hauth, if_neg]
  rw [hurl] at hdiff
  rintro ⟨hh, hs⟩
  rcases hdiff with hd | hd
  · rw [hh] at hd; exact Bool.noConfusion hd
  · rw [hs] at hd; exact Bool.noConfusion hd

/-- C18: in a run of `Intercept`, once the request of some hop was rebuilt for a target whose
host or scheme differs from those of the request it was rebuilt from, that request and every
request forwarded after it carry no `Authorization` header, whatever their targets. -/
theorem Intercept_authorization_stays_removed (env : Env) (middleware : RedirectHandler)
    (pipeline : Pipeline) (req : Request) (k j : Nat) (prev next later : Request)
    (hprev : (Intercept env middleware pipeline req).sent[k]? = some prev)
    (hnext : (Intercept env middleware pipeline req).sent[k + 1]? = some next)
    (hdiff : env.EqualFold next.URL.Host prev.URL.Host = false ∨
      env.EqualFold next.URL.Scheme prev.URL.Scheme = false)
    (hj : k < j)
    (hlater : (Intercept env middleware pipeline req).sent[j]? = some later) :
    next.Header.Values "Authorization" = none ∧
      later.Header.Values "Authorization" = none := by
  have hfirst : next.Header.Values "Authorization" = none := by
    obtain ⟨r, resp, hr, -, hre⟩ := Intercept_linked env middleware pipeline req k next hnext
    rw [hprev] at hr
    have := Option.some.inj hr
    subst this
    exact rebuilt_authorization_stripped env prev resp next hre hdiff
  refine ⟨hfirst, ?_⟩
  have hall : ∀ n q, (Intercept env middleware pipeline req).sent[k + 1 + n]? = some q →
      q.Header.Values "Authorization" = none := by
    intro n
    induction n with
    | zero =>
      intro q hq
      rw [Nat.add_zero, hnext] at hq
      rw [← Option.some.inj hq]
      exact hfirst
    | succ n ih =>
      intro q hq
      obtain ⟨r, resp, hr, -, hre⟩ :=
        Intercept_linked env middleware pipeline req (k + 1 + n) q hq
      exact rebuilt_authorization_none env r resp q hre (ih r hr)
  obtain ⟨n, rfl⟩ : ∃ n, j = k + 1 + n := ⟨j - (k + 1), by omega⟩
  exact hall n later hlater

/-- C18, the example: `https://a.example/x` with credentials, redirected to
`https://b.example/y` and from there back to `https://a.example/x`: the request that returns
to the first host carries no `Authorization` header. -/
theorem Intercept_authorization_stays_removed_witness :
    (Intercept sampleEnv NewRedirectHandler awayAndBack postRequest).sent.map
        (fun r => (r.URL.Host, r.Header.Values "Authorization")) =
      [("a.example", some ["Bearer T"]), ("b.example", none), ("a.example", none)] ∧
    ({ postRequest with
        URL := ⟨"https", "b.example", "/y"⟩
        Header := postRequest.Header.Del "Authorization" } : Request).Header.Values
      "Authorization" = none ∧
    ({ postRequest with
        Header := postRequest.Header.Del "Authorization" } : Request).Header.Values
      "Authorization" = none :=
  ⟨by decide!,
    Intercept_authorization_stays_removed sampleEnv NewRedirectHandler awayAndBack postRequest
      0 2 postRequest
      { postRequest with
        URL := ⟨"https", "b.example", "/y"⟩
        Header := postRequest.Header.Del "Authorization" }
      { postRequest with Header := postRequest.Header.Del "Authorization" }
      (by decide!) (by decide!) (Or.inl (by decide)) (by decide) (by decide!)⟩

/-! ## The original request in memory -/

theorem Memory.assign_last (R : List RequestCell) (c : RequestCell) (H : List Header)
    (f : RequestCell → RequestCell) :
    (⟨R ++ [c], H⟩ : Memory).assign R.length f = ⟨R ++ [f c], H⟩ := by
  simp [Memory.assign]

theorem Memory.headerRef_last (R : List RequestCell) (c : RequestCell) (H : List Header) :
    (⟨R ++ [c], H⟩ : Memory).headerRef R.length = c.Header := by
  simp [Memory.headerRef]

theorem Memory.urlOf_append (R : List RequestCell) (c : RequestCell) (H H' : List Header)
    (p : Nat) (hp : p < R.length) :
    (⟨R ++ [c], H'⟩ : Memory).urlOf p = (⟨R, H⟩ : Memory).urlOf p := by
  simp [Memory.urlOf, List.getElem?_append_left hp]

theorem Memory.Del_last (R : List RequestCell) (H : List Header) (h : Header) (key : String) :
    (⟨R, H ++ [h]⟩ : Memory).Del (some H.length) key = ⟨R, H ++ [h.Del key]⟩ := by
  simp [Memory.Del, Memory.headerOf]

theorem Memory.view_last (R : List RequestCell) (c : RequestCell) (H : List Header) :
    (⟨R ++ [c], H⟩ : Memory).view R.length =
      some ⟨c.Method, c.URL, (⟨R ++ [c], H⟩ : Memory).headerOf c.Header, c.Body, c.Context⟩ := by
  simp [Memory.view]

theorem Memory.headerOf_last (R : List RequestCell) (H : List Header) (h : Header) :
    (⟨R, H ++ [h]⟩ : Memory).headerOf (some H.length) = h := by
  simp [Memory.headerOf]


/-- What was in memory is still there once a structure, and maybe a map, was added. -/
theorem Memory.frame_append (R : List RequestCell) (H : List Header) (x : RequestCell)
    (hs : List Header) (p : Nat) (c : RequestCell) (hcell : R[p]? = some c)
    (hwf : ∀ a, c.Header = some a → a < H.length) :
    (∀ i, i < R.length → (R ++ [x])[i]? = R[i]?) ∧
    (∀ a, a < H.length → (H ++ hs)[a]? = H[a]?) ∧
    (⟨R ++ [x], H ++ hs⟩ : Memory).view p = (⟨R, H⟩ : Memory).view p := by
  have hp : p < R.length := by
    by_contra hge
    rw [List.getElem?_eq_none (by omega)] at hcell
    exact absurd hcell (by simp)
  refine ⟨fun i hi => List.getElem?_append_left hi, fun a ha => List.getElem?_append_left ha, ?_⟩
  simp only [Memory.view, List.getElem?_append_left hp, hcell, Option.map_some',
    Option.some.injEq, Request.mk.injEq, true_and, and_true]
  cases hh : c.Header with
  | none => rfl
  | some a => simp [Memory.headerOf, List.getElem?_append_left (hwf a hh)]

theorem getRedirectRequestAt_spec (env : Env) (R : List RequestCell) (H : List Header)
    (p : Nat) (c : RequestCell) (resp : Response) (first : Char) (rest : List Char) (u : URL)
    (hcell : R[p]? = some c)
    (hloc : (resp.Header.Get "Location").data = first :: rest)
    (hparse : env.Parse (locationTarget
      ⟨c.Method, c.URL, (⟨R, H⟩ : Memory).headerOf c.Header, c.Body, c.Context⟩ first
      (resp.Header.Get "Location")) = .ok u) :
    ∃ x hs, getRedirectRequestAt env ⟨R, H⟩ (some p) (some resp) =
        (⟨R ++ [x], H ++ hs⟩, .ok R.length) ∧
      getRedirectRequest env
        (some ⟨c.Method, c.URL, (⟨R, H⟩ : Memory).headerOf c.Header, c.Body, c.Context⟩)
        (some resp) =
        .ok ⟨x.Method, x.URL, (⟨R ++ [x], H ++ hs⟩ : Memory).headerOf x.Header, x.Body,
          x.Context⟩ := by
  have hp : p < R.length := by
    by_contra hge
    rw [List.getElem?_eq_none (by omega)] at hcell
    exact absurd hcell (by simp)
  have hurl : ∀ (x : RequestCell) (H' : List Header),
      (⟨R ++ [x], H'⟩ : Memory).urlOf p = c.URL := by
    intro x H'
    simp [Memory.urlOf, List.getElem?_append_left hp, hcell]
  have hurl0 : (⟨R, H⟩ : Memory).urlOf p = c.URL := by
    simp [Memory.urlOf, hcell]
  rw [getRedirectRequest_ok env _ resp first rest u hloc hparse]
  simp only [locationTarget] at hparse
  cases hh : c.Header with
  | none =>
    have hclone : (⟨R, H⟩ : Memory).Clone c = (⟨R ++ [c], H⟩, R.length) := by
      simp [Memory.Clone, hh]
    refine ⟨(⟨if resp.StatusCode = 303 then "GET" else c.Method, u, none,
      if resp.StatusCode = 303 then none else c.Body, c.Context⟩ : RequestCell), [], ?_, ?_⟩
    · cases hH : env.EqualFold u.Host c.URL.Host <;>
        cases hS : env.EqualFold u.Scheme c.URL.Scheme <;>
        by_cases h303 : resp.StatusCode = 303 <;>
        simp [getRedirectRequestAt, hcell, locationHeader, hloc, hurl0, hparse, hclone,
          Memory.assign_last, Memory.headerRef_last, hurl, hH, hS, h303, seeOther, Memory.Del,
          hh]
    · cases hH : env.EqualFold u.Host c.URL.Host <;>
        cases hS : env.EqualFold u.Scheme c.URL.Scheme <;>
        by_cases h303 : resp.StatusCode = 303 <;>
        simp [h303, Memory.headerOf, Header.Del]
  | some a =>
    have hclone : (⟨R, H⟩ : Memory).Clone c =
        (⟨R ++ [{ c with Header := some H.length }], H ++ [(⟨R, H⟩ : Memory).headerOf (some a)]⟩,
          R.length) := by
      simp [Memory.Clone, hh]
    refine ⟨(⟨if resp.StatusCode = 303 then "GET" else c.Method, u, some H.length,
      if resp.StatusCode = 303 then none else c.Body, c.Context⟩ : RequestCell),
      [if resp.StatusCode = 303 then
        ((if env.EqualFold u.Host c.URL.Host = true ∧
            env.EqualFold u.Scheme c.URL.Scheme = true then (⟨R, H⟩ : Memory).headerOf (some a)
          else ((⟨R, H⟩ : Memory).headerOf (some a)).Del "Authorization").Del
            "Content-Type").Del "Content-Length"
      else if env.EqualFold u.Host c.URL.Host = true ∧
          env.EqualFold u.Scheme c.URL.Scheme = true then (⟨R, H⟩ : Memory).headerOf (some a)
        else ((⟨R, H⟩ : Memory).headerOf (some a)).Del "Authorization"], ?_, ?_⟩
    · cases hH : env.EqualFold u.Host c.URL.Host <;>
        cases hS : env.EqualFold u.Scheme c.URL.Scheme <;>
        by_cases h303 : resp.StatusCode = 303 <;>
        simp [getRedirectRequestAt, hcell, locationHeader, hloc, hurl0, hparse, hclone,
          Memory.assign_last, Memory.headerRef_last, hurl, hH, hS, h303, seeOther,
          Memory.Del_last]
    · cases hH : env.EqualFold u.Host c.URL.Host <;>
        cases hS : env.EqualFold u.Scheme c.URL.Scheme <;>
        by_cases h303 : resp.StatusCode = 303 <;>
        simp [h303, Memory.headerOf_last]


/-- C15: `getRedirectRequest` leaves the request it is given as it was: after the call, also
one that strips `Authorization` or applies the 303 downgrade, every request structure and
every header map that was in memory is unchanged, so the original request has the method,
URL, header mapping and body it had; the outcome is that of `getRedirectRequest` on the
request as a value, and the rebuilt request lives at another address. -/
theorem getRedirectRequestAt_leaves_original (env : Env) (m : Memory) (p : Nat)
    (c : RequestCell) (response : Option Response)
    (hcell : m.requests[p]? = some c)
    (hwf : ∀ a, c.Header = some a → a < m.headers.length) :
    (∀ i, i < m.requests.length →
      (getRedirectRequestAt env m (some p) response).1.requests[i]? = m.requests[i]?) ∧
    (∀ a, a < m.headers.length →
      (getRedirectRequestAt env m (some p) response).1.headers[a]? = m.headers[a]?) ∧
    (getRedirectRequestAt env m (some p) response).1.view p = m.view p ∧
    (∀ r, getRedirectRequest env (m.view p) response = .ok r →
      ∃ q, (getRedirectRequestAt env m (some p) response).2 = .ok q ∧ q ≠ p ∧
        (getRedirectRequestAt env m (some p) response).1.view q = some r) ∧
    (∀ e, getRedirectRequest env (m.view p) response = .error e →
      (getRedirectRequestAt env m (some p) response).2 = .error e) ∧
    (getRedirectRequest env (m.view p) response = .indexOutOfRange →
      (getRedirectRequestAt env m (some p) response).2 = .indexOutOfRange) := by
  obtain ⟨R, H⟩ := m
  simp only at hcell hwf
  have hp : p < R.length := by
    by_contra hge
    rw [List.getElem?_eq_none (by omega)] at hcell
    exact absurd hcell (by simp)
  have hview : (⟨R, H⟩ : Memory).view p =
      some ⟨c.Method, c.URL, (⟨R, H⟩ : Memory).headerOf c.Header, c.Body, c.Context⟩ := by
    simp [Memory.view, hcell]
  have hurl0 : (⟨R, H⟩ : Memory).urlOf p = c.URL := by
    simp [Memory.urlOf, hcell]
  cases response with
  | none =>
    simp [getRedirectRequestAt, getRedirectRequest, hview]
  | some resp =>
    cases hdata : (resp.Header.Get "Location").data with
    | nil =>
      simp [getRedirectRequestAt, getRedirectRequest, hview, hcell, locationHeader, hdata]
    | cons first rest =>
      cases hparse : env.Parse (locationTarget
          ⟨c.Method, c.URL, (⟨R, H⟩ : Memory).headerOf c.Header, c.Body, c.Context⟩ first
          (resp.Header.Get "Location")) with
      | error e =>
        have hval : getRedirectRequest env ((⟨R, H⟩ : Memory).view p) (some resp) =
            .error e := by
          simp [getRedirectRequest, hview, locationHeader, hdata, hparse]
        simp only [locationTarget] at hparse
        have hout : ∃ x hs, getRedirectRequestAt env ⟨R, H⟩ (some p) (some resp) =
            (⟨R ++ [x], H ++ hs⟩, .error e) := by
          cases hh : c.Header with
          | none =>
            exact ⟨c, [], by
              simp [getRedirectRequestAt, hcell, locationHeader, hdata, hurl0, hparse,
                Memory.Clone, hh]⟩
          | some a =>
            exact ⟨{ c with Header := some H.length }, [(⟨R, H⟩ : Memory).headerOf (some a)],
              by simp [getRedirectRequestAt, hcell, locationHeader, hdata, hurl0, hparse,
                Memory.Clone, hh]⟩
        obtain ⟨x, hs, hout⟩ := hout
        obtain ⟨f1, f2, f3⟩ := Memory.frame_append R H x hs p c hcell hwf
        rw [hout, hval]
        exact ⟨f1, f2, f3, by simp, by simp, by simp⟩
      | ok u =>
        obtain ⟨x, hs, hout, hval⟩ :=
          getRedirectRequestAt_spec env R H p c resp first rest u hcell hdata hparse
        obtain ⟨f1, f2, f3⟩ := Memory.frame_append R H x hs p c hcell hwf
        rw [hout, hview, hval]
        refine ⟨f1, f2, by rw [f3, hview], ?_, by simp, by simp⟩
        intro r hr
        refine ⟨R.length, rfl, by omega, ?_⟩
        simp only [Memory.view_last]
        exact congrArg some (Rebuilt.ok.inj hr)

/-- C15, the example: `postRequest` in memory, answered by 303 with `Location:
https://b.example/y`: the rebuilt request, at address 1, is a `GET` without credentials,
content headers and body, and the request at address 0 is still `postRequest`. -/
theorem getRedirectRequestAt_leaves_original_witness :
    postMemory.view 0 = some postRequest ∧
    (getRedirectRequestAt sampleEnv postMemory (some 0)
      (some (redirectTo 303 "https://b.example/y"))).2 = .ok 1 ∧
    (getRedirectRequestAt sampleEnv postMemory (some 0)
      (some (redirectTo 303 "https://b.example/y"))).1.view 1 =
        some ⟨"GET", ⟨"https", "b.example", "/y"⟩, ⟨[("Cookie", ["k=v"])]⟩, none, 0⟩ ∧
    (getRedirectRequestAt sampleEnv postMemory (some 0)
      (some (redirectTo 303 "https://b.example/y"))).1.view 0 = postMemory.view 0 :=
  ⟨by decide, by decide, by decide,
    (getRedirectRequestAt_leaves_original sampleEnv postMemory 0
      ⟨"POST", ⟨"https", "a.example", "/x"⟩, some 0, some "payload", 0⟩
      (some (redirectTo 303 "https://b.example/y")) (by decide)
      (by intro a ha; cases ha; decide)).2.2.1⟩

/-! ## What the standard library makes of the strings the handler builds -/

/-- The scan of `getScheme` finds no scheme in a string that has no `:` before its first `/`,
`?` or `#`. -/
theorem getSchemeFrom_relative (rawURL : List Char) (l : List Char) :
    ∀ seen : List Char,
      ':' ∉ l.takeWhile (fun c => c != '/' && c != '?' && c != '#') →
      getSchemeFrom rawURL seen (cutBefore '#' l) = .ok ([], rawURL) := by
  induction l with
  | nil =>
    intro seen _
    simp [cutBefore, getSchemeFrom]
  | cons c cs ih =>
    intro seen hcolon
    by_cases hhash : c = '#'
    · subst hhash
      simp [cutBefore, getSchemeFrom]
    · have hcut : cutBefore '#' (c :: cs) = c :: cutBefore '#' cs := by
        simp [cutBefore, List.takeWhile_cons, hhash]
      rw [hcut]
      by_cases hstop : (c != '/' && c != '?' && c != '#') = true
      · rw [List.takeWhile_cons, if_pos hstop] at hcolon
        have hne : c ≠ ':' := fun h => hcolon (by simp [h])
        have hnext : ':' ∉ cs.takeWhile (fun c => c != '/' && c != '?' && c != '#') :=
          fun h => hcolon (List.mem_cons_of_mem _ h)
        simp only [getSchemeFrom, ih _ hnext, hne, if_false]
        split_ifs <;> rfl
      · have hc : c = '/' ∨ c = '?' := by
          simp only [Bool.and_eq_true, bne_iff_ne, ne_eq, not_and, Decidable.not_not] at hstop
          by_cases h1 : c = '/'
          · exact Or.inl h1
          · by_cases h2 : c = '?'
            · exact Or.inr h2
            · exact absurd (hstop ⟨h1, h2⟩) hhash
        rcases hc with rfl | rfl <;> simp [getSchemeFrom, isLetter, isSchemeMark]

/-- The URL that `url.Parse` returns for a string that does not begin with `/` and has no `:`
before its first `/`, `?` or `#` has neither scheme nor host. -/
theorem schemeAndHost_relative (loc : String) (first : Char) (rest : List Char)
    (hloc : loc.data = first :: rest) (hfirst : first ≠ '/')
    (hcolon : ':' ∉ loc.data.takeWhile (fun c => c != '/' && c != '?' && c != '#')) :
    schemeAndHost loc = some ("", "") := by
  have hscheme := getSchemeFrom_relative (cutBefore '#' loc.data) loc.data [] hcolon
  have hhead : ∀ more, cutBefore '?' (cutBefore '#' loc.data) ≠ '/' :: more := by
    intro more h
    rw [hloc] at h
    by_cases h1 : first = '#'
    · simp [cutBefore, List.takeWhile_cons, h1] at h
    · by_cases h2 : first = '?'
      · simp [cutBefore, List.takeWhile_cons, h2] at h
      · simp [cutBefore, List.takeWhile_cons, h1, h2] at h
        exact hfirst h.1
  simp only [schemeAndHost, splitURL, getScheme, hscheme, List.map_nil]
  split
  · rename_i more heq
    exact absurd heq (hhead _)
  · rfl


theorem libraryEnv_parsesAsGo : libraryEnv.parsesAsGo := by
  intro raw u parts hok hparts
  simp only [libraryEnv] at hok
  simp only [schemeAndHost] at hparts
  cases hsplit : splitURL raw with
  | none => simp [hsplit] at hparts
  | some found =>
    obtain ⟨scheme, host, path⟩ := found
    simp only [hsplit, Option.map_some', Option.some.injEq] at hparts
    simp only [hsplit, Except.ok.injEq] at hok
    subst hok
    subst hparts
    exact ⟨rfl, rfl⟩

theorem libraryEnv_foldsAsGo : libraryEnv.foldsAsGo := by
  intro s t b h
  simp [libraryEnv, h]

/-- When `EqualFold` answers as the library does, the empty string equals no other string. -/
theorem foldsAsGo_empty (env : Env) (hfold : env.foldsAsGo) (h : String) (hne : h ≠ "") :
    env.EqualFold "" h = false := by
  apply hfold
  unfold equalFoldModel
  rw [if_neg (fun heq => hne heq.symm)]
  cases hdata : h.data with
  | nil => exact absurd (String.ext (by simpa using hdata)) hne
  | cons c cs => simp [asciiFold]

/-- C17: for a `Location` value that does not begin with `/`, the target is what `url.Parse`
makes of the `Location` value alone: a parse error is returned as it is, and a parsed URL
becomes the URL of the rebuilt request whatever the URL of the original request. With
`url.Parse` and `strings.EqualFold` as the standard library has them, for a `Location` value
that has no `:` before its first `/`, `?` or `#` (a relative reference, such as `y`), the
rebuilt request has an empty scheme and an empty host, and no `Authorization` header when the
host of the original request is not empty. -/
theorem getRedirectRequest_relative (env : Env) (req : Request) (resp : Response)
    (first : Char) (rest : List Char)
    (hloc : (resp.Header.Get "Location").data = first :: rest) (hfirst : first ≠ '/') :
    (∀ err, env.Parse (resp.Header.Get "Location") = .error err →
      getRedirectRequest env (some req) (some resp) = .error err) ∧
    (∀ u, env.Parse (resp.Header.Get "Location") = .ok u →
      ∃ r, getRedirectRequest env (some req) (some resp) = .ok r ∧ r.URL = u ∧
        (∀ other : Request, ∃ r', getRedirectRequest env (some other) (some resp) = .ok r' ∧
          r'.URL = r.URL) ∧
        (u.Scheme = "" → u.Host = "" → env.EqualFold "" req.URL.Host = false →
          r.URL.Scheme = "" ∧ r.URL.Host = "" ∧ r.Header.Values "Authorization" = none)) ∧
    (env.parsesAsGo → env.foldsAsGo →
      ':' ∉ (resp.Header.Get "Location").data.takeWhile
        (fun c => c != '/' && c != '?' && c != '#') →
      ∀ u, env.Parse (resp.Header.Get "Location") = .ok u →
        ∃ r, getRedirectRequest env (some req) (some resp) = .ok r ∧ r.URL = u ∧
          r.URL.Scheme = "" ∧ r.URL.Host = "" ∧
          (req.URL.Host ≠ "" → r.Header.Values "Authorization" = none)) := by
  have htarget : ∀ q : Request,
      locationTarget q first (resp.Header.Get "Location") = resp.Header.Get "Location" := by
    intro q
    simp [locationTarget, hfirst]
  have hrebuilt : ∀ u, env.Parse (resp.Header.Get "Location") = .ok u →
      ∃ r, getRedirectRequest env (some req) (some resp) = .ok r ∧ r.URL = u ∧
        (∀ other : Request, ∃ r', getRedirectRequest env (some other) (some resp) = .ok r' ∧
          r'.URL = r.URL) ∧
        (u.Scheme = "" → u.Host = "" → env.EqualFold "" req.URL.Host = false →
          r.URL.Scheme = "" ∧ r.URL.Host = "" ∧ r.Header.Values "Authorization" = none) := by
    intro u hparse
    obtain ⟨r, hr, hurl, hauth⟩ := rebuilt_authorization_values env req resp first rest u hloc
      (by rw [htarget]; exact hparse)
    refine ⟨r, hr, hurl, ?_, ?_⟩
    · intro other
      obtain ⟨r', hr', hurl', -⟩ := rebuilt_authorization_values env other resp first rest u
        hloc (by rw [htarget]; exact hparse)
      exact ⟨r', hr', by rw [hurl', hurl]⟩
    · intro hs hh hfold
      refine ⟨by rw [hurl, hs], by rw [hurl, hh], ?_⟩
      rw [hauth, if_neg]
      rintro ⟨hhost, -⟩
      rw [hh, hfold] at hhost
      exact Bool.noConfusion hhost
  refine ⟨?_, hrebuilt, ?_⟩
  · intro err herr
    simp [getRedirectRequest, locationHeader, hloc, htarget, herr]
  · intro hparses hfolds hcolon u hparse
    obtain ⟨r, hr, hurl, -, hstrip⟩ := hrebuilt u hparse
    obtain ⟨hs, hh⟩ := hparses _ u _ hparse
      (schemeAndHost_relative (resp.Header.Get "Location") first rest hloc hfirst hcolon)
    simp only at hs hh
    refine ⟨r, hr, hurl, by rw [hurl, hs], by rw [hurl, hh], ?_⟩
    intro hhost
    exact (hstrip hs hh (foldsAsGo_empty env hfolds _ hhost)).2.2

/-- C17, the example: `https://a.example/x` with credentials, answered by 302 with
`Location: y`, is rebuilt with the URL of path `y` without scheme and host, and without
`Authorization`. -/
theorem getRedirectRequest_relative_witness :
    getRedirectRequest libraryEnv (some postRequest) (some (redirectTo 302 "y")) =
      .ok { postRequest with
        URL := ⟨"", "", "y"⟩
        Header := postRequest.Header.Del "Authorization" } ∧
    ∃ r, getRedirectRequest libraryEnv (some postRequest) (some (redirectTo 302 "y")) = .ok r ∧
      r.URL = ⟨"", "", "y"⟩ ∧ r.URL.Scheme = "" ∧ r.URL.Host = "" ∧
      (postRequest.URL.Host ≠ "" → r.Header.Values "Authorization" = none) :=
  ⟨by decide,
    (getRedirectRequest_relative libraryEnv postRequest (redirectTo 302 "y") 'y' [] (by decide)
      (by decide)).2.2 libraryEnv_parsesAsGo libraryEnv_foldsAsGo (by decide)
      ⟨"", "", "y"⟩ rfl⟩

end Nethttp
